import Mathlib

/-!
Verification development for the sagemath/publications scripts
(`publications_parser.py` and `pubparse.py`).

Python strings are modelled as `List Char`; Python dictionaries of
publication attributes are modelled as insertion-ordered association
lists (`Entry`).  Python's built-in `sorted` (a stable sort) is modelled
by a stable insertion sort.  Python exceptions raised by dictionary
lookups (`KeyError`) and empty-list indexing (`IndexError`) are modelled
with `Except PyErr`.
-/

/-- Python strings are modelled as lists of characters. -/
abbrev Str := List Char

/-- Turn a Lean string literal into its `List Char` model. -/
def str (s : String) : Str := s.data

/-- Characters treated as whitespace by Python's `str.strip()` and
`str.split()`. -/
def isSpaceChar (c : Char) : Bool :=
  c = ' ' || c = '\t' || c = '\n' || c = '\r' || c = '\x0b' || c = '\x0c'

/-- Python `s.strip()`: remove leading and trailing whitespace. -/
def trimStr (s : Str) : Str :=
  ((s.dropWhile isSpaceChar).reverse.dropWhile isSpaceChar).reverse

/-- Whether `pat` is a prefix of `s` (plain Boolean recursion). -/
def isPrefixOfB : Str → Str → Bool
  | [], _ => true
  | _ :: _, [] => false
  | a :: as, b :: bs => a = b && isPrefixOfB as bs

/-- Python's substring test `pat in s`. -/
def containsSub (pat s : Str) : Bool :=
  match s with
  | [] => pat.isEmpty
  | _ :: cs => isPrefixOfB pat s || containsSub pat cs

/-- Helper for `splitWs`: scan the string, accumulating the current
(reversed) token. -/
def splitWsAux : Str → Str → List Str
  | [], acc => if acc.isEmpty then [] else [acc.reverse]
  | c :: cs, acc =>
    if isSpaceChar c then
      if acc.isEmpty then splitWsAux cs [] else acc.reverse :: splitWsAux cs []
    else splitWsAux cs (c :: acc)

/-- Python `s.split()` (no argument): split on whitespace runs, dropping
empty pieces. -/
def splitWs (s : Str) : List Str := splitWsAux s []

/-- Helper for `splitOnSub`.  The `fuel` argument makes the recursion
structural; it is initialised with the length of the string, which is
enough fuel because every step consumes at least one character of the
scanned string (the separator is nonempty). -/
def splitOnSubFuel (sep : Str) : Nat → Str → Str → List Str
  | _, [], acc => [acc.reverse]
  | 0, s, acc => [acc.reverse ++ s]
  | fuel + 1, c :: cs, acc =>
    if isPrefixOfB sep (c :: cs) then
      acc.reverse :: splitOnSubFuel sep fuel ((c :: cs).drop sep.length) []
    else
      splitOnSubFuel sep fuel cs (c :: acc)

/-- Python `s.split(sep)` for a nonempty separator `sep`: split at the
leftmost, non-overlapping occurrences of `sep`. -/
def splitOnSub (s sep : Str) : List Str :=
  match sep with
  | [] => [s]
  | _ :: _ => splitOnSubFuel sep s.length s []

/-- Index of the first occurrence of the character `ch`, if any
(Python `s.find(ch)`, with `none` standing for `-1`). -/
def findCharIdx (ch : Char) : Str → Option Nat
  | [] => none
  | c :: cs => if c = ch then some 0 else (findCharIdx ch cs).map (· + 1)

/-- Helper for `listReplace`.  The `fuel` argument makes the recursion
structural; it is initialised with the length of the string, which is
enough fuel because every step consumes at least one character. -/
def replaceFuel (pat repl : Str) : Nat → Str → Str
  | _, [] => []
  | 0, s => s
  | fuel + 1, c :: cs =>
    if isPrefixOfB pat (c :: cs) then
      match pat with
      | [] => c :: cs
      | _ :: pt => repl ++ replaceFuel pat repl fuel (cs.drop pt.length)
    else c :: replaceFuel pat repl fuel cs

/-- Python `s.replace(pat, repl)` for a nonempty pattern: replace the
leftmost, non-overlapping occurrences of `pat` by `repl`. -/
def listReplace (s pat repl : Str) : Str := replaceFuel pat repl s.length s

/-- Insert `x` into the already sorted list, after every element `y`
with `le y x`.  Together with `pySorted` this models Python's stable
built-in sort: an element inserted later is placed after equal,
earlier elements. -/
def pyInsert (le : α → α → Bool) (x : α) : List α → List α
  | [] => [x]
  | y :: ys => if le y x then y :: pyInsert le x ys else x :: y :: ys

/-- Python's built-in `sorted`, a stable sort, modelled as a stable
insertion sort.  For the total orders used by the scripts (pairs with
pairwise-distinct second components) the stable sorted result is unique,
so any faithful model of `sorted` produces this list. -/
def pySorted (l : List α) (le : α → α → Bool) : List α :=
  l.foldl (fun acc x => pyInsert le x acc) []

/-- Strict lexicographic comparison of Python strings (character code
order), as used by Python's `<` on `str`. -/
def strLt : Str → Str → Bool
  | [], [] => false
  | [], _ :: _ => true
  | _ :: _, [] => false
  | a :: as, b :: bs =>
    if a.toNat < b.toNat then true
    else if b.toNat < a.toNat then false
    else strLt as bs

/-- Non-strict lexicographic comparison of Python strings. -/
def strLe (a b : Str) : Bool := strLt a b || a = b

/-- Python's comparison of `(string, int)` pairs: lexicographic, first
component compared as strings, second as integers. -/
def pairLe (a b : Str × Nat) : Bool :=
  if a.1 = b.1 then a.2 ≤ b.2 else strLt a.1 b.1

/-- A publication entry: a Python dictionary mapping attribute names to
attribute values, modelled as an insertion-ordered association list. -/
abbrev Entry := List (Str × Str)

/-- Dictionary lookup (first binding wins). -/
def Entry.get? (e : Entry) (k : Str) : Option Str :=
  match e with
  | [] => none
  | (k', v) :: r => if k' = k then some v else Entry.get? r k

/-- Python `k in d`. -/
def Entry.has (e : Entry) (k : Str) : Bool := (Entry.get? e k).isSome

/-- Total lookup used where the scripts have already tested `k in d`. -/
def Entry.get! (e : Entry) (k : Str) : Str := (Entry.get? e k).getD []

/-- Python exceptions relevant to these scripts: a `KeyError` carrying
the missing key, and an `IndexError` from indexing an empty list. -/
inductive PyErr where
  | keyError (k : Str)
  | indexError
deriving DecidableEq, Repr

/-- Dictionary lookup that raises `KeyError` like Python's `d[k]`. -/
def Entry.getE (e : Entry) (k : Str) : Except PyErr Str :=
  match Entry.get? e k with
  | some v => Except.ok v
  | none => Except.error (PyErr.keyError k)

/-!  The sorting layer.  The functions `surname`, `sort_by_name`,
`sort_by_year` and `sort_publications` are textually identical in
`publications_parser.py` and `pubparse.py`; they are embedded once. -/

/-- The attribute key `"author"`. -/
def keyAuthor : Str := str "author"

/-- The attribute key `"year"`. -/
def keyYear : Str := str "year"

/-- Return the surname of the first author: split the author string on
the literal separator `" and "`, take the first author, split on
whitespace and take the last token (`surname` in both scripts).  The
scripts index with `[-1]`, which raises on an all-whitespace author;
the claims only concern records whose first author has at least one
token, so the lookup is totalised with an empty-string default. -/
def surname (name : Str) : Str :=
  let author_names := splitOnSub name (str " and ")
  let first_author := splitWs (author_names.headD [])
  first_author.getLastD []

/-- Append `item` to the list held at key `year`, adding the key at the
end if absent: the effect of the `if year in items_dict` update in
`sort_by_year`. -/
def dictAppend (d : List (Str × List Entry)) (year : Str) (item : Entry) :
    List (Str × List Entry) :=
  match d with
  | [] => [(year, [item])]
  | (k, v) :: r =>
    if k = year then (k, v ++ [item]) :: r else (k, v) :: dictAppend r year item

/-- Lookup in the year dictionary (`items_dict[year]`). -/
def lookupD (d : List (Str × List Entry)) (year : Str) : List Entry :=
  match d with
  | [] => []
  | (k, v) :: r => if k = year then v else lookupD r year

/-- Python `list.index(x)`: position of the first occurrence. -/
def idxOf (l : List Entry) (x : Entry) : Nat :=
  match l with
  | [] => 0
  | a :: r => if a = x then 0 else idxOf r x + 1

/-- Embedding of `sort_by_year`: build the tuples
`(publications[i]["year"], i)`, sort them with Python's stable sort,
and fold them into a year-keyed dictionary of publication lists. -/
def sort_by_year (publications : List Entry) : List (Str × List Entry) :=
  let item_years := publications.enum.map (fun p => (Entry.get! p.2 keyYear, p.1))
  let sorted_years := pySorted item_years pairLe
  sorted_years.foldl (fun d p => dictAppend d p.1 (publications.getD p.2 [])) []

/-- Embedding of `sort_by_name`: pair each publication's first-author
surname with its position, sort the pairs with Python's stable sort and
read the publications back in that order. -/
def sort_by_name (publications : List Entry) : List Entry :=
  let author_names := publications.enum.map (fun p => (Entry.get! p.2 keyAuthor, p.1))
  let last_names := author_names.enum.map (fun q => (surname q.2.1, q.1))
  let sorted_names := pySorted last_names pairLe
  sorted_names.map (fun q => publications.getD q.2 [])

/-- Embedding of `sort_publications`: group by year, walk the years in
ascending string order, sort each group by first-author surname, and
return original positions recovered with `publications.index(item)`. -/
def sort_publications (publications : List Entry) : List Nat :=
  let publications_sorted_years := sort_by_year publications
  let sorted_years := pySorted (publications_sorted_years.map Prod.fst) strLe
  sorted_years.foldl
    (fun acc year =>
      acc ++ (sort_by_name (lookupD publications_sorted_years year)).map
        (fun item => idxOf publications item))
    []

/-!  Embedding of the rendering layer of `pubparse.py`. -/

namespace Pubparse

/-- The attribute key `"title"`. -/
def keyTitle : Str := str "title"

/-- The attribute key `"note"`. -/
def keyNote : Str := str "note"

/-- The attribute key `"journal"`. -/
def keyJournal : Str := str "journal"

/-- The attribute key `"edition"`. -/
def keyEdition : Str := str "edition"

/-- The attribute key `"publisher"`. -/
def keyPublisher : Str := str "publisher"

/-- The attribute key `"editor"`. -/
def keyEditor : Str := str "editor"

/-- The attribute key `"booktitle"`. -/
def keyBooktitle : Str := str "booktitle"

/-- The attribute key `"pages"`. -/
def keyPages : Str := str "pages"

/-- The attribute key `"school"`. -/
def keySchool : Str := str "school"

/-- The attribute key `"address"`. -/
def keyAddress : Str := str "address"

/-- The attribute key `"howpublished"`. -/
def keyHowpublished : Str := str "howpublished"

/-- The attribute key `"series"`. -/
def keySeries : Str := str "series"

/-- The attribute key `"volume"`. -/
def keyVolume : Str := str "volume"

/-- The attribute key `"number"`. -/
def keyNumber : Str := str "number"

/-- The attribute key `"institution"`. -/
def keyInstitution : Str := str "institution"

/-- The attribute key `"month"`. -/
def keyMonth : Str := str "month"

/-- Replacement table of `replace_special` in `pubparse.py` (LaTeX
escape sequences and residual markup, in source order). -/
def replaceTable : List (Str × Str) :=
  [ (str "\\\x22a", str "&auml;"),
    (str "\\\x27a", str "&aacute;"),
    (str "\\c\x7bc\x7d", str "&ccedil;"),
    (str "\\\x22e", str "&euml;"),
    (str "\\\x27e", str "&eacute;"),
    (str "\\\x27i", str "&iacute;"),
    (str "\\\x27o", str "&oacute;"),
    (str "\\\x60a", str "&agrave;"),
    (str "\\\x60e", str "&egrave;"),
    (str "\\\x60o", str "&ograve;"),
    (str "\\\x22o", str "&ouml;"),
    (str "\\^o", str "&ocirc;"),
    (str "\\o", str "&oslash;"),
    (str "\\&", str "&amp;"),
    (str "\\textsc\x7b", []),
    (str "\\texttt", []),
    (str "\x7b", []),
    (str "\x7d", []) ]

/-- Embedding of `replace_special` (`pubparse.py`): apply the
replacement table left to right to the rendered string. -/
def replace_special (entry : Str) : Str :=
  replaceTable.foldl (fun acc ct => listReplace acc ct.1 ct.2) entry

/-- Embedding of `replace_special_url`: escape `&` as `&amp;` in URLs. -/
def replace_special_url (url : Str) : Str :=
  listReplace url (str "&") (str "&amp;")

/-- Replacement table of `replace_maths` (mathematics snippets turned
into italics), in source order. -/
def mathsTable : List (Str × Str) :=
  [ (str "$0$", str "0"),
    (str "$_3F_2(1/4)$", str "<i>_3F_2(1/4)</i>"),
    (str "$q=0$", str "<i>q=0</i>"),
    (str "$e$", str "<i>e</i>"),
    (str "$k$", str "<i>k</i>"),
    (str "$L$", str "<i>L</i>"),
    (str "$\\mathbbF_q[t]$", str "<i>F_q[t]</i>"),
    (str "$p$", str "<i>p</i>"),
    (str "$PSL_2(\\mathbb Z)$", str "<i>PSL_2(Z)</i>"),
    (str "$S_n$", str "<i>S_n</i>"),
    (str "$Z_N$", str "<i>Z_N</i>") ]

/-- Embedding of `replace_maths`: applied to the whole assembled HTML
content just before it is written out. -/
def replace_maths (s : Str) : Str :=
  mathsTable.foldl (fun acc ct => listReplace acc ct.1 ct.2) s

/-- Embedding of `format_names`: render the `" and "`-separated author
names for display (identical in both scripts). -/
def format_names (names : Str) : Str :=
  let formatted_names := (splitOnSub names (str " and ")).map trimStr
  match formatted_names with
  | [n] => n
  | [a, b] => a ++ str " and " ++ b
  | ns =>
    match ns.getLast? with
    | none => []
    | some last => ((ns.dropLast).map (fun n => n ++ str ", ")).flatten ++ str "and " ++ last

/-- Embedding of `html_title` (`pubparse.py`): take the first
whitespace token of the `note` attribute as URL candidate (an empty
`note` raises `IndexError` from `split()[0]`), escape `&`, and wrap the
title in a hyperlink only when the candidate contains `http://`. -/
def html_title (publication : Entry) : Except PyErr Str :=
  (if Entry.has publication keyNote then
      match splitWs (Entry.get! publication keyNote) with
      | [] => Except.error PyErr.indexError
      | t :: _ => Except.ok (replace_special_url t)
    else Except.ok []).bind fun url =>
  (Entry.getE publication keyTitle).bind fun title =>
  if url ≠ [] ∧ containsSub (str "http://") url then
    Except.ok (str "<a href=\x22" ++ url ++ str "\x22>" ++ title ++ str "</a>" ++ str ". ")
  else
    Except.ok (title ++ str ". ")

/-- Render an optional attribute: emit `f value` when the attribute is
present, nothing otherwise (the guarded `if attr in entry` appends). -/
def optPart (e : Entry) (k : Str) (f : Str → Str) : Str :=
  match Entry.get? e k with
  | some v => f v
  | none => []

/-- Body of the `format_articles` loop for one article. -/
def format_article_one (article : Entry) : Except PyErr Str :=
  (Entry.getE article keyAuthor).bind fun author =>
  (html_title article).bind fun tpart =>
  (Entry.getE article keyJournal).bind fun journal =>
  (Entry.getE article keyYear).bind fun year =>
  Except.ok (trimStr (format_names author ++ str ". " ++ tpart ++ journal ++ str ", "
    ++ optPart article keyVolume (fun v => str "volume " ++ v ++ str ", ")
    ++ optPart article keyNumber (fun v => str "number " ++ v ++ str ", ")
    ++ optPart article keyPages (fun v => str "pages " ++ v ++ str ", ")
    ++ year ++ str "."))

/-- Embedding of `format_articles`: render every article and pass the
results through `replace_special`. -/
def format_articles (articles : List Entry) : Except PyErr (List Str) :=
  (articles.mapM format_article_one).map (fun l => l.map replace_special)

/-- Body of the `format_books` loop for one book. -/
def format_book_one (book : Entry) : Except PyErr Str :=
  (Entry.getE book keyAuthor).bind fun author =>
  (html_title book).bind fun tpart =>
  (Entry.getE book keyPublisher).bind fun publisher =>
  (Entry.getE book keyYear).bind fun year =>
  Except.ok (trimStr (format_names author ++ str ". " ++ tpart
    ++ optPart book keyEdition (fun v => v ++ str " edition, ")
    ++ publisher ++ str ", " ++ year ++ str "."))

/-- Embedding of `format_books`. -/
def format_books (books : List Entry) : Except PyErr (List Str) :=
  (books.mapM format_book_one).map (fun l => l.map replace_special)

/-- Body of the `format_collections` loop for one collection entry. -/
def format_collection_one (entry : Entry) : Except PyErr Str :=
  (Entry.getE entry keyAuthor).bind fun author =>
  (html_title entry).bind fun tpart =>
  (Entry.getE entry keyBooktitle).bind fun booktitle =>
  (Entry.getE entry keyYear).bind fun year =>
  Except.ok (trimStr (format_names author ++ str ". " ++ tpart
    ++ optPart entry keyEditor (fun v => str "In " ++ format_names v ++ str " (ed.). ")
    ++ booktitle ++ str ". "
    ++ optPart entry keyPublisher (fun v => v ++ str ", ")
    ++ optPart entry keyPages (fun v => str "pages " ++ v ++ str ", ")
    ++ year ++ str "."))

/-- Embedding of `format_collections`. -/
def format_collections (collections : List Entry) : Except PyErr (List Str) :=
  (collections.mapM format_collection_one).map (fun l => l.map replace_special)

/-- Body of the `format_masterstheses` loop for one thesis. -/
def format_mastersthesis_one (thesis : Entry) : Except PyErr Str :=
  (Entry.getE thesis keyAuthor).bind fun author =>
  (html_title thesis).bind fun tpart =>
  (Entry.getE thesis keySchool).bind fun school =>
  (Entry.getE thesis keyYear).bind fun year =>
  Except.ok (trimStr (format_names author ++ str ". " ++ tpart
    ++ str "Masters thesis, " ++ school ++ str ", "
    ++ optPart thesis keyAddress (fun v => v ++ str ", ")
    ++ year ++ str "."))

/-- Embedding of `format_masterstheses`. -/
def format_masterstheses (masterstheses : List Entry) : Except PyErr (List Str) :=
  (masterstheses.mapM format_mastersthesis_one).map (fun l => l.map replace_special)

/-- The slice `note[note.find(" "):]` of Python: from the first space
onwards when a space occurs, and `note[-1:]` (the last character)
otherwise, since `find` then returns `-1`. -/
def noteFromSpace (note : Str) : Str :=
  match findCharIdx ' ' note with
  | some i => note.drop i
  | none => note.drop (note.length - 1)

/-- Body of the `format_miscs` loop for one entry, with the `thesis`
flag of the source: an undergraduate thesis additionally renders its
`note` field, stripped of a leading `http://...` URL. -/
def format_misc_one (thesis : Bool) (entry : Entry) : Except PyErr Str :=
  (Entry.getE entry keyAuthor).bind fun author =>
  (html_title entry).bind fun tpart =>
  (if thesis then
      (Entry.getE entry keyNote).map fun note =>
        (if containsSub (str "http://") note then trimStr (noteFromSpace note) else note)
          ++ str ", "
    else Except.ok []).bind fun notepart =>
  (Entry.getE entry keyYear).bind fun year =>
  Except.ok (trimStr (format_names author ++ str ". " ++ tpart
    ++ optPart entry keyHowpublished (fun v => v ++ str ", ")
    ++ notepart ++ year ++ str "."))

/-- Embedding of `format_miscs`. -/
def format_miscs (miscs : List Entry) (thesis : Bool) : Except PyErr (List Str) :=
  (miscs.mapM (format_misc_one thesis)).map (fun l => l.map replace_special)

/-- Body of the `format_phdtheses` loop for one thesis. -/
def format_phdthesis_one (thesis : Entry) : Except PyErr Str :=
  (Entry.getE thesis keyAuthor).bind fun author =>
  (html_title thesis).bind fun tpart =>
  (Entry.getE thesis keySchool).bind fun school =>
  (Entry.getE thesis keyYear).bind fun year =>
  Except.ok (trimStr (format_names author ++ str ". " ++ tpart
    ++ str "PhD thesis, " ++ school ++ str ", "
    ++ optPart thesis keyAddress (fun v => v ++ str ", ")
    ++ year ++ str "."))

/-- Embedding of `format_phdtheses`. -/
def format_phdtheses (phdtheses : List Entry) : Except PyErr (List Str) :=
  (phdtheses.mapM format_phdthesis_one).map (fun l => l.map replace_special)

/-- Body of the `format_techreports` loop for one report. -/
def format_techreport_one (report : Entry) : Except PyErr Str :=
  (Entry.getE report keyAuthor).bind fun author =>
  (html_title report).bind fun tpart =>
  (Entry.getE report keyInstitution).bind fun institution =>
  (Entry.getE report keyYear).bind fun year =>
  Except.ok (trimStr (format_names author ++ str ". " ++ tpart
    ++ institution ++ str ", "
    ++ optPart report keyAddress (fun v => v ++ str ", ")
    ++ optPart report keyNumber (fun v => str "technical report number " ++ v ++ str ", ")
    ++ year ++ str "."))

/-- Embedding of `format_techreports`. -/
def format_techreports (techreports : List Entry) : Except PyErr (List Str) :=
  (techreports.mapM format_techreport_one).map (fun l => l.map replace_special)

/-- Body of the `format_proceedings` loop for one proceedings article.
The pages fragment capitalises `Pages` when the text so far ends with a
period; `htmlstr.strip()[-1]` raises `IndexError` on an empty string. -/
def format_proceeding_one (article : Entry) : Except PyErr Str :=
  (Entry.getE article keyAuthor).bind fun author =>
  (html_title article).bind fun tpart =>
  (Entry.getE article keyBooktitle).bind fun booktitle =>
  (let h1 := format_names author ++ str ". " ++ tpart
      ++ optPart article keyEditor (fun v => str "In " ++ format_names v ++ str " (ed.). ")
      ++ booktitle ++ str ". "
      ++ optPart article keyPublisher (fun v => v ++ str ", ")
      ++ optPart article keySeries (fun v => v ++ str ", ")
      ++ optPart article keyVolume (fun v => str "volume " ++ v ++ str ", ")
   match Entry.get? article keyPages with
   | none => Except.ok h1
   | some pg =>
     match (trimStr h1).getLast? with
     | none => Except.error PyErr.indexError
     | some c =>
       Except.ok (h1 ++ (if c = '.' then str "Pages " else str "pages ")
         ++ pg ++ str ", ")).bind fun h2 =>
  (Entry.getE article keyYear).bind fun year =>
  Except.ok (trimStr (h2 ++ year ++ str "."))

/-- Embedding of `format_proceedings`. -/
def format_proceedings (proceedings : List Entry) : Except PyErr (List Str) :=
  (proceedings.mapM format_proceeding_one).map (fun l => l.map replace_special)

/-- Body of the `format_unpublisheds` loop for one entry. -/
def format_unpublished_one (entry : Entry) : Except PyErr Str :=
  (Entry.getE entry keyAuthor).bind fun author =>
  (html_title entry).bind fun tpart =>
  (Entry.getE entry keyYear).bind fun year =>
  Except.ok (trimStr (format_names author ++ str ". " ++ tpart
    ++ optPart entry keyMonth (fun v => v ++ str ", ")
    ++ year ++ str "."))

/-- Embedding of `format_unpublisheds`. -/
def format_unpublisheds (unpublisheds : List Entry) : Except PyErr (List Str) :=
  (unpublisheds.mapM format_unpublished_one).map (fun l => l.map replace_special)

/-- The misc condition of `filter_undergraduate_theses`:
`("note" in item) and ("thesis" in item["note"])`. -/
def misc_is_thesis (item : Entry) : Bool :=
  Entry.has item keyNote && containsSub (str "thesis") (Entry.get! item keyNote)

/-- Result of the misc classifier: the two partitions. -/
structure FilteredMiscs where
  preprints : List Entry
  undergraduatetheses : List Entry
deriving DecidableEq, Repr

/-- Loop of `filter_undergraduate_theses`: walk the list once, appending
each item to one of the two partitions. -/
def filterUGAux : List Entry → List Entry → List Entry → FilteredMiscs
  | [], pre, ug => { preprints := pre, undergraduatetheses := ug }
  | item :: rest, pre, ug =>
    if misc_is_thesis item then filterUGAux rest pre (ug ++ [item])
    else filterUGAux rest (pre ++ [item]) ug

/-- Embedding of `filter_undergraduate_theses` (`pubparse.py`). -/
def filter_undergraduate_theses (publications : List Entry) : FilteredMiscs :=
  filterUGAux publications [] []

end Pubparse


namespace Pubparse

/-- The marker token `START_TOKEN_ARTICLES`. -/
def tokStartArticles : Str := str "START_TOKEN_ARTICLES"

/-- The marker token `END_TOKEN_ARTICLES`. -/
def tokEndArticles : Str := str "END_TOKEN_ARTICLES"

/-- The marker token `START_TOKEN_THESES`. -/
def tokStartTheses : Str := str "START_TOKEN_THESES"

/-- The marker token `END_TOKEN_THESES`. -/
def tokEndTheses : Str := str "END_TOKEN_THESES"

/-- The marker token `START_TOKEN_BOOKS`. -/
def tokStartBooks : Str := str "START_TOKEN_BOOKS"

/-- The marker token `END_TOKEN_BOOKS`. -/
def tokEndBooks : Str := str "END_TOKEN_BOOKS"

/-- The marker token `START_TOKEN_PREPRINTS`. -/
def tokStartPreprints : Str := str "START_TOKEN_PREPRINTS"

/-- The marker token `END_TOKEN_PREPRINTS`. -/
def tokEndPreprints : Str := str "END_TOKEN_PREPRINTS"

/-- The loop `while not token.search(line): content += line; line =
readline()`: accumulate whole lines until one contains the token.
Returns the accumulated content, the matching line and the remaining
lines.  If the file runs out, `readline` returns `""` forever and the
script loops; that divergence is modelled as `none`. -/
def collectUntil (tok : Str) (line : Str) (rest : List Str) :
    Option (Str × (Str × List Str)) :=
  if containsSub tok line then some ([], (line, rest))
  else
    match rest with
    | [] => none
    | l :: ls => (collectUntil tok l ls).map (fun r => (line ++ r.1, r.2))

/-- The loop `while not token.search(line): line = readline()`: discard
lines until one contains the token; returns that line and the rest. -/
def skipUntil (tok : Str) (line : Str) (rest : List Str) : Option (Str × List Str) :=
  if containsSub tok line then some (line, rest)
  else
    match rest with
    | [] => none
    | l :: ls => skipUntil tok l ls

/-- One freshly inserted publication list: `"  <ol>\n"`, one
`"    <li>...</li>\n"` line per rendered item, then `"  </ol>\n\n"`. -/
def olSection (items : List Str) : Str :=
  str "  <ol>\n"
    ++ (items.map (fun s => str "    <li>" ++ s ++ str "</li>\n")).flatten
    ++ str "  </ol>\n\n"

/-- One marker-delimited section of the template processing: accumulate
the content before the start marker, keep the start-marker line plus an
extra newline, insert the fresh section, and drop the old content up to
the end-marker line.  Returns the processed content, the end-marker
line (which the next section reproduces) and the remaining lines. -/
def spliceSection (tokStart tokEnd : Str) (sec : Str) (line : Str)
    (rest : List Str) : Option (Str × (Str × List Str)) :=
  (collectUntil tokStart line rest).bind fun c1 =>
  (skipUntil tokEnd c1.2.1 c1.2.2).map fun e1 =>
  (c1.1 ++ c1.2.1 ++ str "\n" ++ sec, e1)

/-- The dictionary of publication lists produced by `process_database`
in `pubparse.py` (nine supported kinds). -/
structure PubDict where
  articles : List Entry
  books : List Entry
  incollections : List Entry
  inproceedings : List Entry
  masterstheses : List Entry
  miscs : List Entry
  phdtheses : List Entry
  techreports : List Entry
  unpublisheds : List Entry
deriving Repr

/-- The empty publication dictionary. -/
def emptyPubs : PubDict :=
  { articles := [], books := [], incollections := [], inproceedings := [],
    masterstheses := [], miscs := [], phdtheses := [], techreports := [],
    unpublisheds := [] }

/-- Splice the four rendered sections into the template lines. -/
def spliceAll (sec1 sec2 sec3 sec4 : Str) (tmpl : List Str) : Option Str :=
  match tmpl with
  | [] => none
  | line0 :: rest0 =>
    (spliceSection tokStartArticles tokEndArticles sec1 line0 rest0).bind fun s1 =>
    (spliceSection tokStartTheses tokEndTheses sec2 s1.2.1 s1.2.2).bind fun s2 =>
    (spliceSection tokStartBooks tokEndBooks sec3 s2.2.1 s2.2.2).bind fun s3 =>
    (spliceSection tokStartPreprints tokEndPreprints sec4 s3.2.1 s3.2.2).map fun s4 =>
    s1.1 ++ s2.1 ++ s3.1 ++ s4.1 ++ s4.2.1 ++ s4.2.2.flatten

/-- The rendered, sorted articles section of `output_html`: journal
articles, collection entries, proceedings papers and technical reports
are concatenated, sorted as raw records, and rendered in that order. -/
def articlesSection (publications : PubDict) : Except PyErr Str :=
  (format_articles publications.articles).bind fun articles =>
  (format_collections publications.incollections).bind fun collections =>
  (format_proceedings publications.inproceedings).bind fun proceedings =>
  (format_techreports publications.techreports).bind fun techreports =>
  let papers := articles ++ collections ++ proceedings ++ techreports
  let sorted_index := sort_publications (publications.articles
    ++ publications.incollections ++ publications.inproceedings
    ++ publications.techreports)
  Except.ok (olSection (sorted_index.map (fun i => papers.getD i [])))

/-- The rendered, sorted theses section of `output_html`: Master's
theses, PhD theses and undergraduate theses. -/
def thesesSection (publications : PubDict) : Except PyErr Str :=
  let miscs := filter_undergraduate_theses publications.miscs
  (format_masterstheses publications.masterstheses).bind fun masterstheses =>
  (format_phdtheses publications.phdtheses).bind fun phdtheses =>
  (format_miscs miscs.undergraduatetheses true).bind fun undergradtheses =>
  let theses := masterstheses ++ phdtheses ++ undergradtheses
  let sorted_index := sort_publications (publications.masterstheses
    ++ publications.phdtheses ++ miscs.undergraduatetheses)
  Except.ok (olSection (sorted_index.map (fun i => theses.getD i [])))

/-- The rendered, sorted books section of `output_html`: published
books and unpublished manuscripts. -/
def booksSection (publications : PubDict) : Except PyErr Str :=
  (format_books publications.books).bind fun books =>
  (format_unpublisheds publications.unpublisheds).bind fun unpublisheds =>
  let books_list := books ++ unpublisheds
  let sorted_index := sort_publications (publications.books
    ++ publications.unpublisheds)
  Except.ok (olSection (sorted_index.map (fun i => books_list.getD i [])))

/-- The rendered, sorted preprints section of `output_html`. -/
def preprintsSection (publications : PubDict) : Except PyErr Str :=
  let miscs := filter_undergraduate_theses publications.miscs
  (format_miscs miscs.preprints false).bind fun preprints =>
  let sorted_index := sort_publications miscs.preprints
  Except.ok (olSection (sorted_index.map (fun i => preprints.getD i [])))

/-- Embedding of `output_html` (`pubparse.py`), as a function from the
publication dictionary and the lines of the template file (each line as
returned by `readline`, trailing newline included) to the bytes written
back to the file.  The renderers may raise, and a missing marker makes
the reading loops diverge; both are modelled as `none`.  The assembled
content is passed through `replace_maths` before being written. -/
def output_html_content (publications : PubDict) (tmpl : List Str) : Option Str :=
  (articlesSection publications).toOption.bind fun sec1 =>
  (thesesSection publications).toOption.bind fun sec2 =>
  (booksSection publications).toOption.bind fun sec3 =>
  (preprintsSection publications).toOption.bind fun sec4 =>
  (spliceAll sec1 sec2 sec3 sec4 tmpl).map replace_maths

end Pubparse

/-!  Embedding of the functions specific to `publications_parser.py`. -/

namespace PubParser

/-- The attribute key `"title"`. -/
def keyTitle : Str := str "title"

/-- The attribute key `"school"`. -/
def keySchool : Str := str "school"

/-- The attribute key `"address"`. -/
def keyAddress : Str := str "address"

/-- The attribute key `"url"`. -/
def keyUrl : Str := str "url"

/-- The blank sentinel `"<BLANK>"` of the flat database format. -/
def BLANK : Str := str "<BLANK>"

/-- Insert a binding into a Python dictionary model: an existing key is
overwritten in place, a new key is appended. -/
def dictSet (d : List (Str × Str)) (k v : Str) : List (Str × Str) :=
  match d with
  | [] => [(k, v)]
  | (k', v') :: r => if k' = k then (k, v) :: r else (k', v') :: dictSet r k v

/-- Build a Python dictionary from a list of key/value pairs (later
duplicates of a key overwrite earlier ones), as `dict(zip(...))` does. -/
def pyDictBuild (pairs : List (Str × Str)) : List (Str × Str) :=
  pairs.foldl (fun d kv => dictSet d kv.1 kv.2) []

/-- Python `del d[k]` wrapped in `try/except: pass`: drop the binding
of `k` if present. -/
def dictDelete (d : List (Str × Str)) (k : Str) : List (Str × Str) :=
  match d with
  | [] => []
  | (k', v) :: r => if k' = k then r else (k', v) :: dictDelete r k

/-- Embedding of `remove_blanks` (`publications_parser.py`): invert the
dictionary with `dict(zip(entry.values(), entry.keys()))`, delete the
`"<BLANK>"` key, and invert back. -/
def remove_blanks (entry : Entry) : Entry :=
  let processed_entry := pyDictBuild (entry.map (fun kv => (kv.2, kv.1)))
  let processed_entry := dictDelete processed_entry BLANK
  pyDictBuild (processed_entry.map (fun kv => (kv.2, kv.1)))

/-- Embedding of `remove_special`: strip `{`, `\`, `'`, `"` and `}`
from a citation name. -/
def remove_special (entry : Str) : Str :=
  [str "\x7b", str "\\", str "\x27", str "\x22", str "\x7d"].foldl
    (fun acc pat => listReplace acc pat []) entry

/-- Embedding of `bibtex_citation`: abbreviate the author names to a
citation key (`Surname<year>`, `Surname1Surname2<year>` or
`Surname1EtAl<year>`), then strip special characters.  The script
indexes with `split()[-1]`, which raises on an all-whitespace name; the
lookup is totalised with an empty-string default. -/
def bibtex_citation (names : Str) (year : Str) : Str :=
  let formatted_names := (splitOnSub names (str " and ")).map trimStr
  let citation_name :=
    match formatted_names with
    | [n] => (splitWs n).getLastD []
    | [a, b] => (splitWs a).getLastD [] ++ (splitWs b).getLastD []
    | ns => (splitWs (ns.headD [])).getLastD [] ++ str "EtAl"
  remove_special (citation_name ++ year)

/-- Embedding of `format_author_title`: the opening of a BibTeX stanza,
`@<type>{<citation>,` followed by the author and title lines. -/
def format_author_title (entry : Entry) (entry_type : Str) : Except PyErr Str :=
  (Entry.getE entry keyAuthor).bind fun author =>
  (Entry.getE entry keyYear).bind fun year =>
  (Entry.getE entry keyTitle).bind fun title =>
  Except.ok (str "@" ++ entry_type ++ str "\x7b" ++ bibtex_citation author year
    ++ str ",\n"
    ++ str "  author = \x7b" ++ trimStr author ++ str "\x7d,\n"
    ++ str "  title = \x7b" ++ trimStr title ++ str "\x7d,\n")

/-- Body of the BibTeX branch of `format_masterstheses`
(`publications_parser.py`) for one thesis: school, optional address,
year and the optional `url` rendered as a BibTeX `note` line.  Unlike
every other BibTeX branch of the script, no closing `"}"` is appended
before the result is stripped. -/
def format_mastersthesis_bibtex_one (thesis : Entry) : Except PyErr Str :=
  let thesis_noblanks := remove_blanks thesis
  (format_author_title thesis_noblanks (str "mastersthesis")).bind fun bib0 =>
  (Entry.getE thesis_noblanks keySchool).bind fun school =>
  (Entry.getE thesis_noblanks keyYear).bind fun year =>
  Except.ok (trimStr (bib0
    ++ str "  school = \x7b" ++ trimStr school ++ str "\x7d,\n"
    ++ Pubparse.optPart thesis_noblanks keyAddress
        (fun v => str "  address = \x7b" ++ trimStr v ++ str "\x7d,\n")
    ++ str "  year = \x7b" ++ trimStr year ++ str "\x7d,\n"
    ++ Pubparse.optPart thesis_noblanks keyUrl
        (fun v => str "  note = \x7b" ++ trimStr v ++ str "\x7d,\n")))

/-- Embedding of the BibTeX branch of `format_masterstheses`. -/
def format_masterstheses_bibtex (masterstheses : List Entry) : Except PyErr (List Str) :=
  masterstheses.mapM format_mastersthesis_bibtex_one

/-- Body of the BibTeX branch of `format_books`
(`publications_parser.py`) for one book, which does append the closing
`"}"`; used to contrast with the Master's-thesis branch. -/
def format_book_bibtex_one (book : Entry) : Except PyErr Str :=
  let book_noblanks := remove_blanks book
  (format_author_title book_noblanks (str "book")).bind fun bib0 =>
  (Entry.getE book_noblanks (str "publisher")).bind fun publisher =>
  (Entry.getE book_noblanks keyYear).bind fun year =>
  Except.ok (trimStr (bib0
    ++ Pubparse.optPart book_noblanks (str "edition")
        (fun v => str "  edition = \x7b" ++ trimStr v ++ str "\x7d,\n")
    ++ str "  publisher = \x7b" ++ trimStr publisher ++ str "\x7d,\n"
    ++ str "  year = \x7b" ++ trimStr year ++ str "\x7d,\n"
    ++ Pubparse.optPart book_noblanks keyUrl
        (fun v => str "  note = \x7b" ++ trimStr v ++ str "\x7d,\n")
    ++ str "\x7d"))

/-- Embedding of `html_title` (`publications_parser.py`): the stripped
`url` attribute, `&`-escaped, is used whenever it is nonempty — no
check for an `http://` or `https://` scheme is made. -/
def html_title (publication : Entry) : Except PyErr Str :=
  let url :=
    match Entry.get? publication keyUrl with
    | some u => Pubparse.replace_special_url (trimStr u)
    | none => []
  (Entry.getE publication keyTitle).bind fun title =>
  if url ≠ [] then
    Except.ok (str "<a href=\x22" ++ url ++ str "\x22>" ++ trimStr title
      ++ str "</a>" ++ str ". ")
  else
    Except.ok (trimStr title ++ str ". ")

/-- Loop of `filter_undergraduate_theses` (`publications_parser.py`):
the note is read unconditionally (raising `KeyError` when absent) and
stripped before the substring test. -/
def filterUGAux (l : List Entry) (pre ug : List Entry) :
    Except PyErr Pubparse.FilteredMiscs :=
  match l with
  | [] => Except.ok { preprints := pre, undergraduatetheses := ug }
  | item :: rest =>
    (Entry.getE item (str "note")).bind fun note =>
    if containsSub (str "thesis") (trimStr note) then
      filterUGAux rest pre (ug ++ [item])
    else
      filterUGAux rest (pre ++ [item]) ug

/-- Embedding of `filter_undergraduate_theses`
(`publications_parser.py`). -/
def filter_undergraduate_theses (publications : List Entry) :
    Except PyErr Pubparse.FilteredMiscs :=
  filterUGAux publications [] []

end PubParser

/-!  Lemmas about the stable sort model. -/

/-- Inserting permutes: `pyInsert le x l` is `x :: l` up to order. -/
theorem pyInsert_perm (le : α → α → Bool) (x : α) (l : List α) :
    (pyInsert le x l).Perm (x :: l) := by
  induction l with
  | nil => exact List.Perm.refl _
  | cons y ys ih =>
    by_cases h : le y x = true
    · simp only [pyInsert, h, if_true]
      exact (ih.cons y).trans (List.Perm.swap x y ys)
    · simp only [pyInsert]
      rw [if_neg h]

/-- The fold underlying `pySorted` permutes the accumulator and the
remaining input. -/
theorem pySortedAux_perm (le : α → α → Bool) :
    ∀ (l acc : List α), (l.foldl (fun acc x => pyInsert le x acc) acc).Perm (acc ++ l) := by
  intro l
  induction l with
  | nil => intro acc; simp
  | cons x xs ih =>
    intro acc
    have h1 := ih (pyInsert le x acc)
    have h2 : (pyInsert le x acc ++ xs).Perm (x :: (acc ++ xs)) := by
      simpa using (pyInsert_perm le x acc).append_right xs
    exact h1.trans (h2.trans List.perm_middle.symm)

/-- `pySorted` returns a permutation of its input. -/
theorem pySorted_perm (l : List α) (le : α → α → Bool) :
    (pySorted l le).Perm l := by
  simpa using pySortedAux_perm le l []

/-- Inserting into a list sorted for a transitive, total comparison
keeps it sorted. -/
theorem pyInsert_pairwise {le : α → α → Bool}
    (hTrans : ∀ a b c, le a b = true → le b c = true → le a c = true)
    (hTotal : ∀ a b, le a b = true ∨ le b a = true)
    (x : α) (l : List α) (h : l.Pairwise (le · · = true)) :
    (pyInsert le x l).Pairwise (le · · = true) := by
  induction l with
  | nil => simp [pyInsert]
  | cons y ys ih =>
    rcases List.pairwise_cons.mp h with ⟨hy, hys⟩
    by_cases hle : le y x = true
    · simp only [pyInsert, hle, if_true]
      refine List.pairwise_cons.mpr ⟨?_, ih hys⟩
      intro z hz
      rcases List.mem_cons.mp ((pyInsert_perm le x ys).mem_iff.mp hz) with h2 | h2
      · exact h2 ▸ hle
      · exact hy z h2
    · have hxy : le x y = true := (hTotal x y).resolve_right (by simpa using hle)
      simp only [pyInsert, hle, if_false]
      refine List.pairwise_cons.mpr ⟨?_, h⟩
      intro z hz
      rcases List.mem_cons.mp hz with hz' | hz'
      · exact hz' ▸ hxy
      · exact hTrans x y z hxy (hy z hz')

/-- `pySorted` sorts: for a transitive, total comparison the result is
pairwise ordered. -/
theorem pySorted_pairwise {le : α → α → Bool}
    (hTrans : ∀ a b c, le a b = true → le b c = true → le a c = true)
    (hTotal : ∀ a b, le a b = true ∨ le b a = true)
    (l : List α) : (pySorted l le).Pairwise (le · · = true) := by
  suffices h : ∀ (l acc : List α), acc.Pairwise (le · · = true) →
      (l.foldl (fun acc x => pyInsert le x acc) acc).Pairwise (le · · = true) by
    exact h l [] (List.Pairwise.nil)
  intro l
  induction l with
  | nil => intro acc hacc; simpa using hacc
  | cons x xs ih =>
    intro acc hacc
    exact ih _ (pyInsert_pairwise hTrans hTotal x acc hacc)

/-!  Lemmas about the string and pair orders. -/

/-- Characters with equal code points are equal. -/
theorem char_toNat_inj {a b : Char} (h : a.toNat = b.toNat) : a = b := by
  have hv : a.val = b.val := by
    apply UInt32.ext
    simpa [Char.toNat] using h
  exact Char.ext hv

/-- `strLt` is irreflexive. -/
theorem strLt_irrefl : ∀ (a : Str), strLt a a = false := by
  intro a
  induction a with
  | nil => rfl
  | cons x xs ih => simp [strLt, ih]

/-- `strLt` is transitive. -/
theorem strLt_trans : ∀ (a b c : Str),
    strLt a b = true → strLt b c = true → strLt a c = true := by
  intro a
  induction a with
  | nil =>
    intro b c hab hbc
    cases b with
    | nil => simp [strLt] at hab
    | cons y ys =>
      cases c with
      | nil => simp [strLt] at hbc
      | cons z zs => simp [strLt]
  | cons x xs ih =>
    intro b c hab hbc
    cases b with
    | nil => simp [strLt] at hab
    | cons y ys =>
      cases c with
      | nil => simp [strLt] at hbc
      | cons z zs =>
        simp only [strLt] at hab hbc ⊢
        by_cases ha : x.toNat < y.toNat <;>
          by_cases ha2 : y.toNat < x.toNat <;>
          by_cases hb : y.toNat < z.toNat <;>
          by_cases hb2 : z.toNat < y.toNat <;>
          simp only [ha, ha2, hb, hb2, if_true, if_false] at hab hbc <;>
          by_cases h1 : x.toNat < z.toNat <;>
          by_cases h2 : z.toNat < x.toNat <;>
          simp only [h1, h2, if_true, if_false] <;>
          first
            | rfl
            | omega
            | exact Bool.noConfusion hab
            | exact Bool.noConfusion hbc
            | exact ih ys zs hab hbc

/-- Trichotomy for `strLt`. -/
theorem strLt_tricho : ∀ (a b : Str),
    strLt a b = true ∨ strLt b a = true ∨ a = b := by
  intro a
  induction a with
  | nil =>
    intro b
    cases b with
    | nil => right; right; rfl
    | cons y ys => left; simp [strLt]
  | cons x xs ih =>
    intro b
    cases b with
    | nil => right; left; simp [strLt]
    | cons y ys =>
      by_cases h1 : x.toNat < y.toNat
      · left; simp [strLt, h1]
      · by_cases h2 : y.toNat < x.toNat
        · right; left; simp [strLt, h2]
        · have hxy : x = y := char_toNat_inj (by omega)
          subst hxy
          rcases ih ys with h | h | h
          · left; simp [strLt, h]
          · right; left; simp [strLt, h]
          · right; right; rw [h]

/-- `strLt` is asymmetric. -/
theorem strLt_asymm {a b : Str} (h1 : strLt a b = true) (h2 : strLt b a = true) :
    False := by
  have h3 := strLt_trans a b a h1 h2
  rw [strLt_irrefl] at h3
  exact Bool.noConfusion h3

/-- `strLe` is transitive. -/
theorem strLe_trans (a b c : Str) (hab : strLe a b = true) (hbc : strLe b c = true) :
    strLe a c = true := by
  simp only [strLe, Bool.or_eq_true, decide_eq_true_eq] at hab hbc ⊢
  rcases hab with hab | hab
  · rcases hbc with hbc | hbc
    · exact Or.inl (strLt_trans a b c hab hbc)
    · exact Or.inl (hbc ▸ hab)
  · exact hab ▸ hbc

/-- `strLe` is total. -/
theorem strLe_total (a b : Str) : strLe a b = true ∨ strLe b a = true := by
  simp only [strLe, Bool.or_eq_true, decide_eq_true_eq]
  rcases strLt_tricho a b with h | h | h
  · exact Or.inl (Or.inl h)
  · exact Or.inr (Or.inl h)
  · exact Or.inl (Or.inr h)

/-- A non-strict comparison between distinct strings is strict. -/
theorem strLt_of_strLe_ne {a b : Str} (h : strLe a b = true) (hne : a ≠ b) :
    strLt a b = true := by
  simp only [strLe, Bool.or_eq_true, decide_eq_true_eq] at h
  exact h.resolve_right hne

/-- `pairLe` is transitive. -/
theorem pairLe_trans (a b c : Str × Nat) (hab : pairLe a b = true)
    (hbc : pairLe b c = true) : pairLe a c = true := by
  obtain ⟨a1, a2⟩ := a
  obtain ⟨b1, b2⟩ := b
  obtain ⟨c1, c2⟩ := c
  simp only [pairLe] at hab hbc ⊢
  by_cases h1 : a1 = b1
  · by_cases h2 : b1 = c1
    · subst h1; subst h2
      simp at hab hbc ⊢
      omega
    · subst h1
      simp only [if_neg h2] at hbc ⊢
      exact hbc
  · by_cases h2 : b1 = c1
    · subst h2
      simp only [if_neg h1] at hab ⊢
      exact hab
    · simp only [if_neg h1] at hab
      simp only [if_neg h2] at hbc
      by_cases h3 : a1 = c1
      · subst h3
        exact absurd (strLt_trans _ _ _ hab hbc) (by simp [strLt_irrefl])
      · simp only [if_neg h3]
        exact strLt_trans _ _ _ hab hbc

/-- `pairLe` is total. -/
theorem pairLe_total (a b : Str × Nat) : pairLe a b = true ∨ pairLe b a = true := by
  obtain ⟨a1, a2⟩ := a
  obtain ⟨b1, b2⟩ := b
  simp only [pairLe]
  by_cases h1 : a1 = b1
  · subst h1
    simp
    omega
  · have h2 : b1 ≠ a1 := fun h => h1 h.symm
    simp only [if_neg h1, if_neg h2]
    rcases strLt_tricho a1 b1 with h | h | h
    · exact Or.inl h
    · exact Or.inr h
    · exact absurd h h1

/-!  Correctness development for `sort_publications`. -/

/-- The year of the record at position `i`. -/
def yearOf (pubs : List Entry) (i : Nat) : Str :=
  Entry.get! (pubs.getD i []) keyYear

/-- The first-author surname of the record at position `i`. -/
def surOf (pubs : List Entry) (i : Nat) : Str :=
  surname (Entry.get! (pubs.getD i []) keyAuthor)

/-- The display order required of `sort_publications`: position `i`
comes no later than position `j` when its year is smaller as a string,
or the years agree and its first-author surname is smaller, or both
agree and `i` originally came first (stability). -/
def lexLe (pubs : List Entry) (i j : Nat) : Prop :=
  strLt (yearOf pubs i) (yearOf pubs j) = true ∨
    (yearOf pubs i = yearOf pubs j ∧
      (strLt (surOf pubs i) (surOf pubs j) = true ∨
        (surOf pubs i = surOf pubs j ∧ i ≤ j)))

/-- The permutation of `0, …, m-1` obtained by the Python idiom
`sorted((key i, i) for i in range(m))`: a stable sort of the positions
by the string key `f`. -/
def sortPerm (f : Nat → Str) (m : Nat) : List Nat :=
  (pySorted ((List.range m).map (fun k => (f k, k))) pairLe).map Prod.snd

/-- The sorted key/position pairs are a permutation of the originals. -/
theorem sortPerm_pairs_perm (f : Nat → Str) (m : Nat) :
    (pySorted ((List.range m).map (fun k => (f k, k))) pairLe).Perm
      ((List.range m).map (fun k => (f k, k))) :=
  pySorted_perm _ _

/-- Every sorted pair is of the form `(f k, k)` with `k < m`. -/
theorem sortPerm_pairs_mem (f : Nat → Str) (m : Nat) {p : Str × Nat}
    (hp : p ∈ pySorted ((List.range m).map (fun k => (f k, k))) pairLe) :
    p.1 = f p.2 ∧ p.2 < m := by
  have hmem := (sortPerm_pairs_perm f m).mem_iff.mp hp
  rcases List.mem_map.mp hmem with ⟨k, hk, hkp⟩
  subst hkp
  exact ⟨rfl, List.mem_range.mp hk⟩

/-- `sortPerm` is a permutation of `0, …, m-1`. -/
theorem sortPerm_perm (f : Nat → Str) (m : Nat) :
    (sortPerm f m).Perm (List.range m) := by
  have h1 := (sortPerm_pairs_perm f m).map Prod.snd
  have h2 : ((List.range m).map (fun k => (f k, k))).map Prod.snd = List.range m := by
    rw [List.map_map]
    exact List.map_id (List.range m)
  rw [h2] at h1
  exact h1

/-- Members of `sortPerm` are positions below `m`. -/
theorem sortPerm_mem_lt (f : Nat → Str) (m : Nat) {k : Nat}
    (hk : k ∈ sortPerm f m) : k < m :=
  List.mem_range.mp ((sortPerm_perm f m).mem_iff.mp hk)

/-- `sortPerm` lists the positions in nondecreasing key order, original
order preserved between equal keys. -/
theorem sortPerm_pairwise (f : Nat → Str) (m : Nat) :
    (sortPerm f m).Pairwise
      (fun a b => strLt (f a) (f b) = true ∨ (f a = f b ∧ a ≤ b)) := by
  have hpw : (pySorted ((List.range m).map (fun k => (f k, k))) pairLe).Pairwise
      (pairLe · · = true) :=
    pySorted_pairwise pairLe_trans pairLe_total _
  have hpw2 : (pySorted ((List.range m).map (fun k => (f k, k))) pairLe).Pairwise
      (fun p q => strLt (f p.2) (f q.2) = true ∨ (f p.2 = f q.2 ∧ p.2 ≤ q.2)) := by
    refine hpw.imp_of_mem ?_
    intro p q hp hq hle
    obtain ⟨hp1, _⟩ := sortPerm_pairs_mem f m hp
    obtain ⟨hq1, _⟩ := sortPerm_pairs_mem f m hq
    rw [pairLe, hp1, hq1] at hle
    by_cases h : f p.2 = f q.2
    · rw [if_pos h] at hle
      exact Or.inr ⟨h, by simpa using hle⟩
    · rw [if_neg h] at hle
      exact Or.inl hle
  rw [sortPerm, List.pairwise_map]
  exact hpw2

/-- The indexed key pairs built by the scripts from `enum` have the
canonical `range`-map shape. -/
theorem enum_keyed_pairs (pubs : List Entry) (g : Entry → Str) :
    pubs.enum.map (fun p => (g p.2, p.1))
      = (List.range pubs.length).map (fun k => (g (pubs.getD k []), k)) := by
  apply List.ext_getElem
  · simp [List.enum_length]
  · intro i h1 h2
    have hi : i < pubs.length := by simpa [List.enum_length] using h1
    have he : i < pubs.enum.length := by simpa [List.enum_length] using hi
    simp only [List.getElem_map, List.getElem_enum, List.getElem_range]
    rw [List.getD_eq_getElem pubs [] hi]

/-- The doubly indexed surname pairs of `sort_by_name` have the
canonical `range`-map shape. -/
theorem sort_by_name_pairs (ps : List Entry) :
    (ps.enum.map (fun p => (Entry.get! p.2 keyAuthor, p.1))).enum.map
        (fun q => (surname q.2.1, q.1))
      = (List.range ps.length).map
          (fun k => (surname (Entry.get! (ps.getD k []) keyAuthor), k)) := by
  apply List.ext_getElem
  · simp [List.enum_length]
  · intro i h1 h2
    have hi : i < ps.length := by simpa [List.enum_length] using h1
    have hie : i < (ps.enum.map (fun p => (Entry.get! p.2 keyAuthor, p.1))).length := by
      simpa [List.enum_length] using hi
    have hien : i < (ps.enum.map (fun p => (Entry.get! p.2 keyAuthor, p.1))).enum.length := by
      simpa [List.enum_length] using hie
    have hee : i < ps.enum.length := by simpa [List.enum_length] using hi
    simp only [List.getElem_map, List.getElem_enum, List.getElem_range]
    rw [List.getD_eq_getElem ps [] hi]

/-- `sort_by_name` reads the publications back along `sortPerm` of the
surname key. -/
theorem sort_by_name_eq (ps : List Entry) :
    sort_by_name ps
      = (sortPerm (fun k => surname (Entry.get! (ps.getD k []) keyAuthor))
          ps.length).map (fun k => ps.getD k []) := by
  simp only [sort_by_name, sortPerm]
  rw [sort_by_name_pairs ps, List.map_map]
  rfl

/-- Looking up after a `dictAppend`: the bucket of `year` gains `item`
at its end, other buckets are unchanged. -/
theorem lookupD_dictAppend (d : List (Str × List Entry)) (y' : Str) (e : Entry)
    (y : Str) :
    lookupD (dictAppend d y' e) y = lookupD d y ++ (if y' = y then [e] else []) := by
  induction d with
  | nil =>
    by_cases h : y' = y
    · simp [dictAppend, lookupD, h]
    · simp [dictAppend, lookupD, h]
  | cons kv r ih =>
    obtain ⟨k, v⟩ := kv
    by_cases hk : k = y'
    · subst hk
      simp only [dictAppend, if_pos rfl]
      by_cases hy : k = y
      · subst hy
        simp [lookupD, if_pos rfl]
      · simp [lookupD, hy]
    · simp only [dictAppend, if_neg hk]
      by_cases hy : k = y
      · subst hy
        have hy2 : y' ≠ k := fun h => hk h.symm
        simp [lookupD, if_pos rfl, hy2]
      · simp [lookupD, hy, ih]

/-- Folding year/position pairs into the dictionary: each bucket
collects, in order, the publications whose pair carries its year. -/
theorem lookupD_fold (pubs : List Entry) :
    ∀ (L : List (Str × Nat)) (d0 : List (Str × List Entry)) (y : Str),
      lookupD (L.foldl (fun d p => dictAppend d p.1 (pubs.getD p.2 [])) d0) y
        = lookupD d0 y
          ++ (L.filter (fun p => decide (p.1 = y))).map (fun p => pubs.getD p.2 []) := by
  intro L
  induction L with
  | nil => intro d0 y; simp
  | cons p L ih =>
    intro d0 y
    rw [List.foldl_cons, ih]
    by_cases h : p.1 = y
    · simp [lookupD_dictAppend, h, List.filter_cons]
    · simp [lookupD_dictAppend, h, List.filter_cons]

/-- Keys after `dictAppend`: unchanged when the year is present,
appended at the end otherwise. -/
theorem dictAppend_keys (d : List (Str × List Entry)) (y' : Str) (e : Entry) :
    (dictAppend d y' e).map Prod.fst
      = if y' ∈ d.map Prod.fst then d.map Prod.fst else d.map Prod.fst ++ [y'] := by
  induction d with
  | nil => simp [dictAppend]
  | cons kv r ih =>
    obtain ⟨k, v⟩ := kv
    by_cases hk : k = y'
    · subst hk
      simp [dictAppend]
    · have hk2 : y' ≠ k := fun h => hk h.symm
      simp only [dictAppend, if_neg hk, List.map_cons, ih]
      by_cases hm : y' ∈ r.map Prod.fst
      · simp [hm, hk2]
      · simp [hm, hk2]

/-- Membership in the keys of the folded year dictionary. -/
theorem fold_keys_mem (pubs : List Entry) :
    ∀ (L : List (Str × Nat)) (d0 : List (Str × List Entry)) (y : Str),
      (y ∈ (L.foldl (fun d p => dictAppend d p.1 (pubs.getD p.2 [])) d0).map Prod.fst)
        ↔ (y ∈ d0.map Prod.fst ∨ y ∈ L.map Prod.fst) := by
  intro L
  induction L with
  | nil => intro d0 y; simp
  | cons p L ih =>
    intro d0 y
    rw [List.foldl_cons, ih, dictAppend_keys]
    by_cases h : p.1 ∈ d0.map Prod.fst
    · simp only [if_pos h, List.map_cons, List.mem_cons]
      constructor
      · tauto
      · rintro (h1 | h1 | h1)
        · tauto
        · exact Or.inl (h1 ▸ h)
        · tauto
    · simp only [if_neg h, List.map_cons, List.mem_cons, List.mem_append,
        List.mem_singleton]
      tauto

/-- The folded year dictionary has pairwise-distinct keys. -/
theorem fold_keys_nodup (pubs : List Entry) :
    ∀ (L : List (Str × Nat)) (d0 : List (Str × List Entry)),
      (d0.map Prod.fst).Nodup →
      ((L.foldl (fun d p => dictAppend d p.1 (pubs.getD p.2 [])) d0).map Prod.fst).Nodup := by
  intro L
  induction L with
  | nil => intro d0 h; simpa using h
  | cons p L ih =>
    intro d0 h
    rw [List.foldl_cons]
    apply ih
    rw [dictAppend_keys]
    by_cases hm : p.1 ∈ d0.map Prod.fst
    · simpa [hm] using h
    · simp only [if_neg hm]
      rw [List.nodup_append]
      exact ⟨h, List.nodup_singleton _, by simpa using hm⟩

/-- Unrolling the accumulating fold of `sort_publications` into a
flattened map. -/
theorem foldl_append_flatten (ks : List α) (g : α → List β) :
    ∀ (a : List β), ks.foldl (fun acc y => acc ++ g y) a = a ++ (ks.map g).flatten := by
  induction ks with
  | nil => intro a; simp
  | cons k ks ih =>
    intro a
    rw [List.foldl_cons, ih, List.map_cons, List.flatten_cons, List.append_assoc]

/-- Splitting a list of keyed pairs along a duplicate-free cover of its
keys: the flattened per-key filters are a permutation of the list. -/
theorem flatten_filter_perm :
    ∀ (ks : List Str) (l : List (Str × Nat)), ks.Nodup → (∀ p ∈ l, p.1 ∈ ks) →
      ((ks.map (fun y => l.filter (fun p => decide (p.1 = y)))).flatten).Perm l := by
  intro ks
  induction ks with
  | nil =>
    intro l _ hcov
    cases l with
    | nil => simp
    | cons p r => exact absurd (hcov p (List.mem_cons_self p r)) (by simp)
  | cons y ks ih =>
    intro l hnd hcov
    rw [List.map_cons, List.flatten_cons]
    have hnd2 := List.nodup_cons.mp hnd
    have hstep : ∀ y2 ∈ ks, l.filter (fun p => decide (p.1 = y2))
        = (l.filter (fun p => !decide (p.1 = y))).filter (fun p => decide (p.1 = y2)) := by
      intro y2 hy2
      rw [List.filter_filter]
      apply List.filter_congr
      intro p _
      by_cases hp : p.1 = y2
      · have hne : y2 ≠ y := fun hc => hnd2.1 (hc ▸ hy2)
        simp [hp, hne]
      · simp [hp]
    have hmap : ks.map (fun y2 => l.filter (fun p => decide (p.1 = y2)))
        = ks.map (fun y2 => (l.filter (fun p => !decide (p.1 = y))).filter
            (fun p => decide (p.1 = y2))) :=
      List.map_congr_left hstep
    rw [hmap]
    have hrec := ih (l.filter (fun p => !decide (p.1 = y))) hnd2.2 ?_
    · exact (hrec.append_left _).trans (List.filter_append_perm _ l)
    · intro p hp
      have hmem := List.mem_of_mem_filter hp
      have hne : ¬ p.1 = y := by
        have := List.of_mem_filter hp
        simpa using this
      rcases List.mem_cons.mp (hcov p hmem) with h | h
      · exact absurd h hne
      · exact h

/-- `list.index` of the element at a position recovers the position
when the list has no duplicates. -/
theorem idxOf_getElem : ∀ (l : List Entry), l.Nodup →
    ∀ g, g < l.length → idxOf l (l.getD g []) = g := by
  intro l
  induction l with
  | nil => intro _ g hg; exact absurd hg (by simp)
  | cons a r ih =>
    intro hnd g hg
    rcases List.nodup_cons.mp hnd with ⟨ha, hr⟩
    cases g with
    | zero => simp [idxOf]
    | succ g =>
      have hg2 : g < r.length := by simpa using hg
      have hx : r.getD g [] ∈ r := by
        rw [List.getD_eq_getElem r [] hg2]
        exact List.getElem_mem hg2
      have hne : a ≠ r.getD g [] := fun h => ha (h ▸ hx)
      have hD : (a :: r).getD (g + 1) [] = r.getD g [] := by
        rw [List.getD_eq_getElem _ [] hg, List.getD_eq_getElem r [] hg2]
        simp
      rw [hD]
      simp only [idxOf, if_neg hne]
      rw [ih hr g hg2]

/-- Reading a list back along `range` of its length. -/
theorem map_getD_range (l : List α) (d : α) :
    (List.range l.length).map (fun k => l.getD k d) = l := by
  apply List.ext_getElem
  · simp
  · intro i h1 h2
    simp only [List.getElem_map, List.getElem_range]
    rw [List.getD_eq_getElem l d h2]

/-- `sortPerm` only looks at the keys of positions below `m`. -/
theorem sortPerm_congr {f g : Nat → Str} (m : Nat)
    (h : ∀ k, k < m → f k = g k) : sortPerm f m = sortPerm g m := by
  unfold sortPerm
  congr 1
  congr 1
  apply List.map_congr_left
  intro k hk
  rw [h k (List.mem_range.mp hk)]

/-- The group of positions whose record carries year `y`, in original
input order (the stable year sort keeps equal years in position
order). -/
def yearGroup (pubs : List Entry) (y : Str) : List Nat :=
  ((pySorted ((List.range pubs.length).map (fun k => (yearOf pubs k, k))) pairLe).filter
    (fun p => decide (p.1 = y))).map Prod.snd

/-- Membership in a year group. -/
theorem yearGroup_mem (pubs : List Entry) (y : Str) (i : Nat) :
    i ∈ yearGroup pubs y ↔ (i < pubs.length ∧ yearOf pubs i = y) := by
  unfold yearGroup
  constructor
  · intro h
    rcases List.mem_map.mp h with ⟨p, hp, hpi⟩
    have hmem := List.mem_of_mem_filter hp
    have hcond : p.1 = y := by simpa using List.of_mem_filter hp
    obtain ⟨h1, h2⟩ := sortPerm_pairs_mem (yearOf pubs) pubs.length hmem
    subst hpi
    exact ⟨h2, h1 ▸ hcond⟩
  · rintro ⟨hi, hy⟩
    apply List.mem_map.mpr
    refine ⟨(yearOf pubs i, i), ?_, rfl⟩
    apply List.mem_filter.mpr
    refine ⟨?_, by simpa using hy⟩
    apply (sortPerm_pairs_perm (yearOf pubs) pubs.length).mem_iff.mpr
    exact List.mem_map.mpr ⟨i, List.mem_range.mpr hi, rfl⟩

/-- A year group lists its positions in strictly increasing order. -/
theorem yearGroup_sorted (pubs : List Entry) (y : Str) :
    (yearGroup pubs y).Pairwise (· < ·) := by
  have hpw : (pySorted ((List.range pubs.length).map (fun k => (yearOf pubs k, k)))
      pairLe).Pairwise (pairLe · · = true) :=
    pySorted_pairwise pairLe_trans pairLe_total _
  have hflt := hpw.filter (fun p => decide (p.1 = y))
  have hle : ((pySorted ((List.range pubs.length).map (fun k => (yearOf pubs k, k)))
      pairLe).filter (fun p => decide (p.1 = y))).Pairwise (fun p q => p.2 ≤ q.2) := by
    refine hflt.imp_of_mem ?_
    intro p q hp hq hle
    have hpy : p.1 = y := by simpa using List.of_mem_filter hp
    have hqy : q.1 = y := by simpa using List.of_mem_filter hq
    rw [pairLe, if_pos (hpy.trans hqy.symm)] at hle
    simpa using hle
  have hnd : (yearGroup pubs y).Nodup := by
    have hsub : (yearGroup pubs y).Sublist (sortPerm (yearOf pubs) pubs.length) :=
      (List.filter_sublist _).map Prod.snd
    have hnds : (sortPerm (yearOf pubs) pubs.length).Nodup :=
      (sortPerm_perm (yearOf pubs) pubs.length).symm.nodup (List.nodup_range _)
    exact hsub.nodup hnds
  have hle2 : (yearGroup pubs y).Pairwise (· ≤ ·) := by
    rw [yearGroup, List.pairwise_map]
    exact hle
  have hand := hle2.and hnd
  exact hand.imp (fun h => Nat.lt_of_le_of_ne h.1 h.2)

/-- `sort_by_year` is the dictionary fold over the stably sorted
year/position pairs. -/
theorem sort_by_year_eq (pubs : List Entry) :
    sort_by_year pubs
      = (pySorted ((List.range pubs.length).map (fun k => (yearOf pubs k, k)))
          pairLe).foldl (fun d p => dictAppend d p.1 (pubs.getD p.2 [])) [] := by
  simp only [sort_by_year]
  rw [enum_keyed_pairs pubs (fun e => Entry.get! e keyYear)]
  rfl

/-- The bucket of year `y` in the year dictionary holds the records of
`yearGroup pubs y`, in that order. -/
theorem lookup_sort_by_year (pubs : List Entry) (y : Str) :
    lookupD (sort_by_year pubs) y
      = (yearGroup pubs y).map (fun i => pubs.getD i []) := by
  rw [sort_by_year_eq, lookupD_fold pubs _ [] y]
  simp only [yearGroup, List.map_map]
  rfl

/-- The keys of the year dictionary have no duplicates. -/
theorem sort_by_year_keys_nodup (pubs : List Entry) :
    ((sort_by_year pubs).map Prod.fst).Nodup := by
  rw [sort_by_year_eq]
  exact fold_keys_nodup pubs _ [] (by simp)

/-- The keys of the year dictionary are exactly the years occurring in
the stably sorted pairs. -/
theorem sort_by_year_keys_mem (pubs : List Entry) (y : Str) :
    y ∈ (sort_by_year pubs).map Prod.fst
      ↔ y ∈ (pySorted ((List.range pubs.length).map (fun k => (yearOf pubs k, k)))
              pairLe).map Prod.fst := by
  rw [sort_by_year_eq, fold_keys_mem pubs _ [] y]
  simp

/-- One year's contribution to `sort_publications`: the year bucket is
sorted by surname and mapped back to original positions. -/
def yearBlock (pubs : List Entry) (y : Str) : List Nat :=
  (sort_by_name (lookupD (sort_by_year pubs) y)).map (fun item => idxOf pubs item)

/-- On a duplicate-free publication list, the year block reads the year
group back along the surname `sortPerm`. -/
theorem yearBlock_eq (pubs : List Entry) (hnd : pubs.Nodup) (y : Str) :
    yearBlock pubs y
      = (sortPerm (fun k => surOf pubs ((yearGroup pubs y).getD k 0))
          (yearGroup pubs y).length).map
            (fun k => (yearGroup pubs y).getD k 0) := by
  unfold yearBlock
  rw [lookup_sort_by_year, sort_by_name_eq, List.map_map]
  have hlen : ((yearGroup pubs y).map (fun i => pubs.getD i [])).length
      = (yearGroup pubs y).length := by simp
  rw [hlen]
  have hgetD : ∀ k, k < (yearGroup pubs y).length →
      ((yearGroup pubs y).map (fun i => pubs.getD i [])).getD k []
        = pubs.getD ((yearGroup pubs y).getD k 0) [] := by
    intro k hk
    rw [List.getD_eq_getElem _ [] (by simpa using hk), List.getElem_map,
      List.getD_eq_getElem _ 0 hk]
  have hkey : ∀ k, k < (yearGroup pubs y).length →
      surname (Entry.get! (((yearGroup pubs y).map (fun i => pubs.getD i [])).getD k [])
          keyAuthor)
        = surOf pubs ((yearGroup pubs y).getD k 0) := by
    intro k hk
    rw [hgetD k hk]
    rfl
  rw [sortPerm_congr (yearGroup pubs y).length hkey]
  apply List.map_congr_left
  intro k hk
  have hk2 : k < (yearGroup pubs y).length :=
    sortPerm_mem_lt _ _ hk
  rw [Function.comp_apply, hgetD k hk2]
  have hg : (yearGroup pubs y).getD k 0 ∈ yearGroup pubs y := by
    rw [List.getD_eq_getElem _ 0 hk2]
    exact List.getElem_mem hk2
  have hlt : (yearGroup pubs y).getD k 0 < pubs.length :=
    ((yearGroup_mem pubs y _).mp hg).1
  exact idxOf_getElem pubs hnd _ hlt

/-- Year blocks permute their year groups. -/
theorem yearBlock_perm (pubs : List Entry) (hnd : pubs.Nodup) (y : Str) :
    (yearBlock pubs y).Perm (yearGroup pubs y) := by
  rw [yearBlock_eq pubs hnd y]
  have h := (sortPerm_perm (fun k => surOf pubs ((yearGroup pubs y).getD k 0))
    (yearGroup pubs y).length).map (fun k => (yearGroup pubs y).getD k 0)
  rwa [map_getD_range (yearGroup pubs y) 0] at h

/-- Year blocks are internally ordered by surname, ties kept in
original position order. -/
theorem yearBlock_pairwise (pubs : List Entry) (hnd : pubs.Nodup) (y : Str) :
    (yearBlock pubs y).Pairwise (lexLe pubs) := by
  rw [yearBlock_eq pubs hnd y, List.pairwise_map]
  refine (sortPerm_pairwise (fun k => surOf pubs ((yearGroup pubs y).getD k 0))
    (yearGroup pubs y).length).imp_of_mem ?_
  intro a b ha hb hrel
  have ha2 : a < (yearGroup pubs y).length := sortPerm_mem_lt _ _ ha
  have hb2 : b < (yearGroup pubs y).length := sortPerm_mem_lt _ _ hb
  have hga : (yearGroup pubs y).getD a 0 ∈ yearGroup pubs y := by
    rw [List.getD_eq_getElem _ 0 ha2]; exact List.getElem_mem ha2
  have hgb : (yearGroup pubs y).getD b 0 ∈ yearGroup pubs y := by
    rw [List.getD_eq_getElem _ 0 hb2]; exact List.getElem_mem hb2
  have hyA : yearOf pubs ((yearGroup pubs y).getD a 0) = y :=
    ((yearGroup_mem pubs y _).mp hga).2
  have hyB : yearOf pubs ((yearGroup pubs y).getD b 0) = y :=
    ((yearGroup_mem pubs y _).mp hgb).2
  rcases hrel with h | ⟨heq, hab⟩
  · exact Or.inr ⟨hyA.trans hyB.symm, Or.inl h⟩
  · refine Or.inr ⟨hyA.trans hyB.symm, Or.inr ⟨heq, ?_⟩⟩
    rcases Nat.lt_or_ge a b with hlt | hge
    · have := (List.pairwise_iff_getElem.mp (yearGroup_sorted pubs y)) a b ha2 hb2 hlt
      rw [List.getD_eq_getElem _ 0 ha2, List.getD_eq_getElem _ 0 hb2]
      exact Nat.le_of_lt this
    · have hab2 : a = b := Nat.le_antisymm hab hge
      rw [hab2]

/-- Pointwise permutations flatten to a permutation. -/
theorem flatten_map_perm {f g : α → List β} :
    ∀ (ks : List α), (∀ y ∈ ks, (f y).Perm (g y)) →
      ((ks.map f).flatten).Perm ((ks.map g).flatten) := by
  intro ks
  induction ks with
  | nil => intro _; simp
  | cons k ks ih =>
    intro h
    simp only [List.map_cons, List.flatten_cons]
    exact (h k (List.mem_cons_self k ks)).append
      (ih (fun y hy => h y (List.mem_cons_of_mem k hy)))

/-- `sort_publications` as a flattened walk over the sorted distinct
years. -/
theorem sort_publications_eq (pubs : List Entry) :
    sort_publications pubs
      = ((pySorted ((sort_by_year pubs).map Prod.fst) strLe).map
          (yearBlock pubs)).flatten := by
  simp only [sort_publications]
  rw [foldl_append_flatten]
  simp only [List.nil_append]
  rfl

/-- Main correctness property of `sort_publications` on duplicate-free
publication lists: the result enumerates the positions `0, …, n-1`
exactly once, ordered by year (as strings), then first-author surname,
then original position. -/
theorem sort_publications_spec (pubs : List Entry) (hnd : pubs.Nodup) :
    (sort_publications pubs).Perm (List.range pubs.length) ∧
      (sort_publications pubs).Pairwise (lexLe pubs) := by
  rw [sort_publications_eq]
  have hksPerm : (pySorted ((sort_by_year pubs).map Prod.fst) strLe).Perm
      ((sort_by_year pubs).map Prod.fst) := pySorted_perm _ _
  have hksNodup : (pySorted ((sort_by_year pubs).map Prod.fst) strLe).Nodup :=
    hksPerm.symm.nodup (sort_by_year_keys_nodup pubs)
  have hksLt : (pySorted ((sort_by_year pubs).map Prod.fst) strLe).Pairwise
      (fun y1 y2 => strLt y1 y2 = true) := by
    have hle := pySorted_pairwise strLe_trans strLe_total
      ((sort_by_year pubs).map Prod.fst)
    exact (hle.and hksNodup).imp (fun h => strLt_of_strLe_ne h.1 h.2)
  have hksMem : ∀ y, y ∈ pySorted ((sort_by_year pubs).map Prod.fst) strLe
      ↔ y ∈ (pySorted ((List.range pubs.length).map (fun k => (yearOf pubs k, k)))
              pairLe).map Prod.fst := by
    intro y
    rw [hksPerm.mem_iff]
    exact sort_by_year_keys_mem pubs y
  constructor
  · -- permutation
    have h1 : (((pySorted ((sort_by_year pubs).map Prod.fst) strLe).map
        (yearBlock pubs)).flatten).Perm
          (((pySorted ((sort_by_year pubs).map Prod.fst) strLe).map
            (yearGroup pubs)).flatten) :=
      flatten_map_perm _ (fun y _ => yearBlock_perm pubs hnd y)
    have h2 : ((pySorted ((sort_by_year pubs).map Prod.fst) strLe).map
        (yearGroup pubs)).flatten
          = (((pySorted ((sort_by_year pubs).map Prod.fst) strLe).map
              (fun y => (pySorted ((List.range pubs.length).map
                  (fun k => (yearOf pubs k, k))) pairLe).filter
                (fun p => decide (p.1 = y)))).flatten).map Prod.snd := by
      rw [List.map_flatten, List.map_map]
      rfl
    have h3 : ((((pySorted ((sort_by_year pubs).map Prod.fst) strLe).map
        (fun y => (pySorted ((List.range pubs.length).map
            (fun k => (yearOf pubs k, k))) pairLe).filter
          (fun p => decide (p.1 = y)))).flatten).map Prod.snd).Perm
          (((pySorted ((List.range pubs.length).map (fun k => (yearOf pubs k, k)))
            pairLe)).map Prod.snd) := by
      apply List.Perm.map
      apply flatten_filter_perm _ _ hksNodup
      intro p hp
      rw [hksMem p.1]
      exact List.mem_map.mpr ⟨p, hp, rfl⟩
    have h4 : ((pySorted ((List.range pubs.length).map (fun k => (yearOf pubs k, k)))
        pairLe).map Prod.snd).Perm (List.range pubs.length) :=
      sortPerm_perm (yearOf pubs) pubs.length
    exact h1.trans ((h2 ▸ (h3.trans h4)) : (((pySorted ((sort_by_year pubs).map
      Prod.fst) strLe).map (yearGroup pubs)).flatten).Perm (List.range pubs.length))
  · -- pairwise order
    rw [List.pairwise_flatten]
    constructor
    · intro l hl
      rcases List.mem_map.mp hl with ⟨y, _, hy⟩
      exact hy ▸ yearBlock_pairwise pubs hnd y
    · rw [List.pairwise_map]
      refine hksLt.imp_of_mem ?_
      intro y1 y2 _ _ hlt a ha b hb
      have ha2 : a ∈ yearGroup pubs y1 := (yearBlock_perm pubs hnd y1).mem_iff.mp ha
      have hb2 : b ∈ yearGroup pubs y2 := (yearBlock_perm pubs hnd y2).mem_iff.mp hb
      have hya : yearOf pubs a = y1 := ((yearGroup_mem pubs y1 a).mp ha2).2
      have hyb : yearOf pubs b = y2 := ((yearGroup_mem pubs y2 b).mp hb2).2
      exact Or.inl (by rw [hya, hyb]; exact hlt)

/-- A record has a `year` attribute holding a four-digit string. -/
def hasFourDigitYear (e : Entry) : Prop :=
  Entry.has e keyYear = true ∧ (Entry.get! e keyYear).length = 4 ∧
    ∀ c ∈ Entry.get! e keyYear, c.isDigit = true

/-- A record has an `author` attribute whose first author has at least
one whitespace-delimited token, so that its surname is defined. -/
def hasSurnameAuthor (e : Entry) : Prop :=
  Entry.has e keyAuthor = true ∧
    splitWs ((splitOnSub (Entry.get! e keyAuthor) (str " and ")).headD []) ≠ []

instance (e : Entry) : Decidable (hasFourDigitYear e) := by
  unfold hasFourDigitYear; infer_instance

instance (e : Entry) : Decidable (hasSurnameAuthor e) := by
  unfold hasSurnameAuthor; infer_instance

/-- The duplicate record of the `C1` counterexample. -/
def dupRec : Entry := [(keyAuthor, str "A B"), (keyYear, str "2005")]

/-- C1 counterexample: on the two-element list repeating one record
(which has an author and a four-digit year), `sort_publications`
returns `[0, 0]` — `publications.index(item)` finds the first duplicate
twice — which is not a permutation of the indices `0, 1`. -/
theorem C1_counterexample :
    hasFourDigitYear dupRec ∧ hasSurnameAuthor dupRec ∧
      sort_publications [dupRec, dupRec] = [0, 0] ∧
      ¬ (sort_publications [dupRec, dupRec]).Perm (List.range 2) := by
  refine ⟨by decide, by decide, by decide, ?_⟩
  intro h
  have h1 : (1 : Nat) ∈ sort_publications [dupRec, dupRec] :=
    h.mem_iff.mpr (by decide)
  have h2 : sort_publications [dupRec, dupRec] = [0, 0] := by decide
  rw [h2] at h1
  simp at h1

/-- C1 (amended): for every list of pairwise-distinct publication
records, each with an `author` (whose first author has a surname) and a
four-digit `year` attribute, `sort_publications` returns a permutation
of the indices `0, …, n-1`, ordered by year ascending (compared as
strings), then by first-author surname ascending, with the original
input order preserved on full ties. -/
theorem C1_sort_publications_stable_permutation (pubs : List Entry)
    (hnd : pubs.Nodup)
    (_hyear : ∀ e ∈ pubs, hasFourDigitYear e)
    (_hauthor : ∀ e ∈ pubs, hasSurnameAuthor e) :
    (sort_publications pubs).Perm (List.range pubs.length) ∧
      (sort_publications pubs).Pairwise (lexLe pubs) :=
  sort_publications_spec pubs hnd

/-- Witness for C1 at a concrete three-record input. -/
theorem C1_witness :
    (sort_publications [[(keyAuthor, str "Zed A"), (keyYear, str "2005")],
        [(keyAuthor, str "Adam B"), (keyYear, str "1999")],
        [(keyAuthor, str "Alex C"), (keyYear, str "2005")]]).Perm (List.range 3) ∧
      (sort_publications [[(keyAuthor, str "Zed A"), (keyYear, str "2005")],
        [(keyAuthor, str "Adam B"), (keyYear, str "1999")],
        [(keyAuthor, str "Alex C"), (keyYear, str "2005")]]).Pairwise
          (lexLe [[(keyAuthor, str "Zed A"), (keyYear, str "2005")],
            [(keyAuthor, str "Adam B"), (keyYear, str "1999")],
            [(keyAuthor, str "Alex C"), (keyYear, str "2005")]]) :=
  C1_sort_publications_stable_permutation _ (by decide) (by decide) (by decide)

/-- C2 counterexample: on the spec's example — years
`["2005", "1999", "2005"]` with first authors `"Zed A"`, `"Adam B"`,
`"Alex C"` — `sort_publications` returns `[1, 0, 2]`, not the claimed
`[1, 2, 0]`: the surnames (last whitespace tokens) are `"A"`, `"B"`,
`"C"`, so within the year 2005 the record of `"Zed A"` sorts first. -/
theorem C2_counterexample :
    sort_publications [[(keyAuthor, str "Zed A"), (keyYear, str "2005")],
        [(keyAuthor, str "Adam B"), (keyYear, str "1999")],
        [(keyAuthor, str "Alex C"), (keyYear, str "2005")]] = [1, 0, 2] ∧
      ([1, 0, 2] : List Nat) ≠ [1, 2, 0] := by
  exact ⟨by decide, by decide⟩

/-- C2 (amended): on three records with years `["2005", "1999", "2005"]`
and author strings `["Zed A", "Adam B", "Alex C"]`, `sort_publications`
returns the index order `[1, 0, 2]`. -/
theorem C2_sort_publications_example :
    sort_publications [[(keyAuthor, str "Zed A"), (keyYear, str "2005")],
        [(keyAuthor, str "Adam B"), (keyYear, str "1999")],
        [(keyAuthor, str "Alex C"), (keyYear, str "2005")]] = [1, 0, 2] := by
  decide

/-!  Lemmas about substring containment and stripping. -/

/-- `isPrefixOfB` agrees with list prefixes. -/
theorem isPrefixOfB_iff : ∀ (p s : Str), isPrefixOfB p s = true ↔ p <+: s := by
  intro p
  induction p with
  | nil => intro s; simp [isPrefixOfB]
  | cons a as ih =>
    intro s
    cases s with
    | nil =>
      simp only [isPrefixOfB]
      constructor
      · intro h; exact Bool.noConfusion h
      · intro h; exact absurd h.length_le (by simp)
    | cons b bs =>
      simp only [isPrefixOfB, Bool.and_eq_true, decide_eq_true_eq, ih,
        List.cons_prefix_cons]

/-- `containsSub` agrees with list infixes (Python's `in`). -/
theorem containsSub_iff : ∀ (p s : Str), containsSub p s = true ↔ p <:+: s := by
  intro p s
  induction s with
  | nil =>
    simp only [containsSub, List.isEmpty_iff]
    constructor
    · intro h; exact h ▸ List.infix_rfl
    · intro h
      have hlen := h.length_le
      cases p with
      | nil => rfl
      | cons a as => simp at hlen
  | cons c cs ih =>
    simp only [containsSub, Bool.or_eq_true, isPrefixOfB_iff, ih,
      List.infix_cons_iff]

/-- Dropping a whitespace prefix does not change the occurrence of a
nonempty whitespace-free pattern. -/
theorem containsSub_dropWhile (p : Str) (hne : p ≠ [])
    (hws : ∀ c ∈ p, isSpaceChar c = false) :
    ∀ (s : Str), containsSub p (s.dropWhile isSpaceChar) = containsSub p s := by
  intro s
  induction s with
  | nil => simp
  | cons c cs ih =>
    by_cases hc : isSpaceChar c = true
    · rw [List.dropWhile_cons_of_pos hc, ih]
      have hpre : isPrefixOfB p (c :: cs) = false := by
        cases p with
        | nil => exact absurd rfl hne
        | cons a as =>
          have ha : isSpaceChar a = false := hws a (List.mem_cons_self a as)
          have hac : ¬ a = c := fun h => by rw [h, hc] at ha; exact Bool.noConfusion ha
          simp [isPrefixOfB, hac]
      simp [containsSub, hpre]
    · rw [List.dropWhile_cons_of_neg (by simpa using hc)]

/-- Stripping surrounding whitespace does not change the occurrence of
a nonempty whitespace-free pattern (`"thesis" in note.strip()` is
`"thesis" in note`). -/
theorem containsSub_trimStr (p : Str) (hne : p ≠ [])
    (hws : ∀ c ∈ p, isSpaceChar c = false) (s : Str) :
    containsSub p (trimStr s) = containsSub p s := by
  rw [Bool.eq_iff_iff, containsSub_iff, containsSub_iff]
  constructor
  · intro h
    have h2 : trimStr s <+: s.dropWhile isSpaceChar := by
      rw [← List.reverse_suffix]
      simpa [trimStr] using
        List.dropWhile_suffix (l := (s.dropWhile isSpaceChar).reverse) isSpaceChar
    have h1 : trimStr s <:+: s :=
      (h2.isInfix).trans (List.dropWhile_suffix isSpaceChar).isInfix
    exact h.trans h1
  · intro h
    have h2 : p <:+: s.dropWhile isSpaceChar := by
      rw [← containsSub_iff, containsSub_dropWhile p hne hws, containsSub_iff]
      exact h
    have h3 : p.reverse <:+: (s.dropWhile isSpaceChar).reverse :=
      List.reverse_infix.mpr (by simpa using h2)
    have h4 : p.reverse <:+: (s.dropWhile isSpaceChar).reverse.dropWhile isSpaceChar := by
      rw [← containsSub_iff,
        containsSub_dropWhile p.reverse (by simpa using hne)
          (fun c hc => hws c (List.mem_reverse.mp hc)),
        containsSub_iff]
      exact h3
    have h5 : (p.reverse).reverse <:+:
        ((s.dropWhile isSpaceChar).reverse.dropWhile isSpaceChar).reverse :=
      List.reverse_infix.mpr h4
    simpa [trimStr] using h5

/-- A tested lookup succeeds: `d[k]` after `k in d`. -/
theorem getE_of_has (e : Entry) (k : Str) (h : Entry.has e k = true) :
    Entry.getE e k = Except.ok (Entry.get! e k) := by
  unfold Entry.has at h
  unfold Entry.getE Entry.get!
  cases hg : Entry.get? e k with
  | none => rw [hg] at h; exact Bool.noConfusion h
  | some v => simp

/-- The classifier loop of `pubparse.py` partitions by the thesis
condition, keeping the original relative order in both partitions. -/
theorem filterUGAux_eq : ∀ (l pre ug : List Entry),
    Pubparse.filterUGAux l pre ug
      = { preprints := pre ++ l.filter (fun e => !(Pubparse.misc_is_thesis e)),
          undergraduatetheses := ug ++ l.filter Pubparse.misc_is_thesis } := by
  intro l
  induction l with
  | nil => intro pre ug; simp [Pubparse.filterUGAux]
  | cons item rest ih =>
    intro pre ug
    by_cases h : Pubparse.misc_is_thesis item = true
    · simp only [Pubparse.filterUGAux, h, if_true, ih, List.filter_cons,
        Bool.not_true, if_false]
      simp [List.append_assoc]
    · have h2 : Pubparse.misc_is_thesis item = false := by
        simpa using h
      simp only [Pubparse.filterUGAux, h2, Bool.false_eq_true, if_false, ih,
        List.filter_cons, Bool.not_false, if_true]
      simp [List.append_assoc]

/-- Bind on a successful `Except` computation. -/
theorem exceptBind_ok {α β ε : Type} (a : α) (f : α → Except ε β) :
    (Except.ok a : Except ε α).bind f = f a := rfl

/-- Bind on a failed `Except` computation. -/
theorem exceptBind_error {α β ε : Type} (e : ε) (f : α → Except ε β) :
    (Except.error e : Except ε α).bind f = Except.error e := rfl

/-- Map on a successful `Except` computation. -/
theorem exceptMap_ok {α β ε : Type} (a : α) (f : α → β) :
    (Except.ok a : Except ε α).map f = Except.ok (f a) := rfl

/-- The classifier loop of `publications_parser.py` computes the same
partition when every record carries a `note` attribute (there the note
is stripped first, which does not change the substring test). -/
theorem ppFilterUGAux_eq : ∀ (l pre ug : List Entry),
    (∀ e ∈ l, Entry.has e Pubparse.keyNote = true) →
    PubParser.filterUGAux l pre ug
      = Except.ok
          { preprints := pre ++ l.filter (fun e => !(Pubparse.misc_is_thesis e)),
            undergraduatetheses := ug ++ l.filter Pubparse.misc_is_thesis } := by
  intro l
  induction l with
  | nil => intro pre ug _; simp [PubParser.filterUGAux]
  | cons item rest ih =>
    intro pre ug hhas
    have hitem : Entry.has item Pubparse.keyNote = true :=
      hhas item (List.mem_cons_self item rest)
    have hrest : ∀ e ∈ rest, Entry.has e Pubparse.keyNote = true :=
      fun e he => hhas e (List.mem_cons_of_mem item he)
    have hget : Entry.getE item (str "note")
        = Except.ok (Entry.get! item Pubparse.keyNote) :=
      getE_of_has item Pubparse.keyNote hitem
    have hcond : containsSub (str "thesis") (trimStr (Entry.get! item Pubparse.keyNote))
        = Pubparse.misc_is_thesis item := by
      rw [containsSub_trimStr (str "thesis") (by decide) (by decide)]
      unfold Pubparse.misc_is_thesis
      rw [hitem]
      simp
    rw [PubParser.filterUGAux, hget, exceptBind_ok, hcond]
    by_cases h : Pubparse.misc_is_thesis item = true
    · rw [if_pos h, ih pre (ug ++ [item]) hrest]
      simp [List.filter_cons, h]
    · have h2 : Pubparse.misc_is_thesis item = false := by simpa using h
      rw [if_neg h, ih (pre ++ [item]) ug hrest]
      simp [List.filter_cons, h2]

/-- Example misc record whose note carries a URL and the word
`thesis`. -/
def exThesis : Entry :=
  [(keyAuthor, str "A B"), (Pubparse.keyTitle, str "T1"), (keyYear, str "2009"),
   (Pubparse.keyNote, str "http://example.org/x.pdf Bachelor thesis")]

/-- Example misc record whose note carries only a URL. -/
def exPre : Entry :=
  [(keyAuthor, str "C D"), (Pubparse.keyTitle, str "T2"), (keyYear, str "2010"),
   (Pubparse.keyNote, str "http://example.org/y.pdf")]

/-- C5: the misc classifier puts a record among the undergraduate
theses iff its note field is present and contains `"thesis"`, puts it
among the preprints otherwise, and keeps the original relative order in
both partitions (they are the two filters of the input list).  The two
concrete example notes classify as claimed, and the
`publications_parser.py` variant computes the same partition whenever
every record carries a note (it strips the note first, which does not
change the test). -/
theorem C5_misc_classifier :
    (∀ l : List Entry,
      (Pubparse.filter_undergraduate_theses l).undergraduatetheses
          = l.filter Pubparse.misc_is_thesis ∧
        (Pubparse.filter_undergraduate_theses l).preprints
          = l.filter (fun e => !(Pubparse.misc_is_thesis e))) ∧
    (∀ e : Entry, Pubparse.misc_is_thesis e = true ↔
      ((Entry.get? e Pubparse.keyNote).isSome = true ∧
        containsSub (str "thesis") (Entry.get! e Pubparse.keyNote) = true)) ∧
    Pubparse.misc_is_thesis exThesis = true ∧
    Pubparse.misc_is_thesis exPre = false ∧
    (∀ l : List Entry, (∀ e ∈ l, Entry.has e Pubparse.keyNote = true) →
      PubParser.filter_undergraduate_theses l
        = Except.ok
            { preprints := l.filter (fun e => !(Pubparse.misc_is_thesis e)),
              undergraduatetheses := l.filter Pubparse.misc_is_thesis }) := by
  refine ⟨?_, ?_, by decide, by decide, ?_⟩
  · intro l
    unfold Pubparse.filter_undergraduate_theses
    rw [filterUGAux_eq l [] []]
    exact ⟨by simp, by simp⟩
  · intro e
    unfold Pubparse.misc_is_thesis Entry.has
    simp
  · intro l hl
    unfold PubParser.filter_undergraduate_theses
    rw [ppFilterUGAux_eq l [] [] hl]
    simp

/-- Decidable equality for `Except` results, used to evaluate the
renderers and classifiers on concrete inputs. -/
instance {e a : Type} [DecidableEq e] [DecidableEq a] : DecidableEq (Except e a) := by
  intro x y
  cases x <;> cases y <;>
    first
      | exact isFalse (fun hc => Except.noConfusion hc)
      | exact decidable_of_iff _ (by rw [Except.error.injEq])
      | exact decidable_of_iff _ (by rw [Except.ok.injEq])

/-- Witness for C5: both classifiers on the two example records. -/
theorem C5_witness :
    PubParser.filter_undergraduate_theses [exThesis, exPre]
      = Except.ok { preprints := [exPre], undergraduatetheses := [exThesis] } := by
  have h := C5_misc_classifier.2.2.2.2 [exThesis, exPre] (by decide)
  rw [h]
  decide

/-- C10: `remove_blanks` builds `dict(zip(entry.values(), entry.keys()))`
and inverts it back, so two distinct attributes sharing one non-blank
value collapse to a single binding — on
`{volume: "2", number: "2"}` the `volume` attribute is lost, while the
blank-removal itself works as documented. -/
theorem C10_remove_blanks_collision :
    PubParser.remove_blanks [(str "volume", str "2"), (str "number", str "2")]
        = [(str "number", str "2")] ∧
      Entry.get? (PubParser.remove_blanks
        [(str "volume", str "2"), (str "number", str "2")]) (str "volume") = none ∧
      PubParser.remove_blanks
          [(Pubparse.keyNote, PubParser.BLANK), (keyAuthor, str "A Q")]
        = [(keyAuthor, str "A Q")] := by
  exact ⟨by decide, by decide, by decide⟩

/-!  Lemmas about Python's `replace`. -/

/-- A pattern with a character that the string lacks never occurs. -/
theorem containsSub_eq_false_of_char {pat s : Str} {c0 : Char}
    (hc : c0 ∈ pat) (hs : c0 ∉ s) : containsSub pat s = false := by
  by_cases h : containsSub pat s = true
  · exact absurd (((containsSub_iff pat s).mp h).sublist.subset hc) hs
  · simpa using h

/-- Replacing a pattern that does not occur leaves the string alone. -/
theorem replaceFuel_not_contains {pat repl : Str} :
    ∀ (fuel : Nat) (s : Str), containsSub pat s = false → s.length ≤ fuel →
      replaceFuel pat repl fuel s = s := by
  intro fuel
  induction fuel with
  | zero =>
    intro s _ hf
    cases s with
    | nil => rfl
    | cons c cs => simp at hf
  | succ fuel ih =>
    intro s h hf
    cases s with
    | nil => rfl
    | cons c cs =>
      simp only [containsSub, Bool.or_eq_false_iff] at h
      simp only [replaceFuel]
      rw [if_neg (by simp [h.1])]
      rw [ih cs h.2 (by simpa using Nat.le_of_succ_le_succ hf)]

/-- Folding a replacement table whose patterns never occur leaves the
string alone. -/
theorem foldReplace_not_contains (tbl : List (Str × Str)) (s : Str)
    (h : ∀ pt ∈ tbl, containsSub pt.1 s = false) :
    tbl.foldl (fun acc ct => listReplace acc ct.1 ct.2) s = s := by
  induction tbl with
  | nil => rfl
  | cons pt tbl ih =>
    rw [List.foldl_cons]
    have h1 : listReplace s pt.1 pt.2 = s :=
      replaceFuel_not_contains s.length s (h pt (List.mem_cons_self pt tbl))
        (Nat.le_refl _)
    rw [h1]
    exact ih (fun q hq => h q (List.mem_cons_of_mem pt hq))

/-- Characters of a replaced string come from the string or the
replacement. -/
theorem replaceFuel_chars {pat repl : Str} {c0 : Char} :
    ∀ (fuel : Nat) (s : Str), c0 ∈ replaceFuel pat repl fuel s →
      c0 ∈ s ∨ c0 ∈ repl := by
  intro fuel
  induction fuel with
  | zero =>
    intro s h
    cases s with
    | nil => simp [replaceFuel] at h
    | cons c cs => exact Or.inl h
  | succ fuel ih =>
    intro s h
    cases s with
    | nil => simp [replaceFuel] at h
    | cons c cs =>
      simp only [replaceFuel] at h
      by_cases hp : isPrefixOfB pat (c :: cs) = true
      · rw [if_pos hp] at h
        cases pat with
        | nil => exact Or.inl h
        | cons p0 pt =>
          rcases List.mem_append.mp h with h1 | h1
          · exact Or.inr h1
          · rcases ih _ h1 with h2 | h2
            · exact Or.inl (List.mem_cons_of_mem c (List.mem_of_mem_drop h2))
            · exact Or.inr h2
      · rw [if_neg hp] at h
        rcases List.mem_cons.mp h with h1 | h1
        · exact Or.inl (h1 ▸ List.mem_cons_self c cs)
        · rcases ih cs h1 with h2 | h2
          · exact Or.inl (List.mem_cons_of_mem c h2)
          · exact Or.inr h2

/-- Characters survive a fold over a replacement table only if they
come from the string or from one of the replacement targets. -/
theorem foldReplace_chars (tbl : List (Str × Str)) {c0 : Char} :
    ∀ (s : Str), c0 ∈ tbl.foldl (fun acc ct => listReplace acc ct.1 ct.2) s →
      c0 ∈ s ∨ ∃ pt ∈ tbl, c0 ∈ pt.2 := by
  induction tbl with
  | nil => intro s h; exact Or.inl h
  | cons pt tbl ih =>
    intro s h
    rw [List.foldl_cons] at h
    rcases ih _ h with h1 | ⟨q, hq, hcq⟩
    · rcases replaceFuel_chars s.length s h1 with h2 | h2
      · exact Or.inl h2
      · exact Or.inr ⟨pt, List.mem_cons_self pt tbl, h2⟩
    · exact Or.inr ⟨q, List.mem_cons_of_mem pt hq, hcq⟩

/-- Replacing a single character by nothing removes every occurrence. -/
theorem replaceFuel_removes_char (ch : Char) :
    ∀ (fuel : Nat) (s : Str), s.length ≤ fuel →
      ch ∉ replaceFuel [ch] [] fuel s := by
  intro fuel
  induction fuel with
  | zero =>
    intro s hf
    cases s with
    | nil => simp [replaceFuel]
    | cons c cs => simp at hf
  | succ fuel ih =>
    intro s hf
    cases s with
    | nil => simp [replaceFuel]
    | cons c cs =>
      have hlen : cs.length ≤ fuel := by simpa using Nat.le_of_succ_le_succ hf
      by_cases hc : c = ch
      · have hp : isPrefixOfB [ch] (c :: cs) = true := by simp [isPrefixOfB, hc]
        simp only [replaceFuel]
        rw [if_pos hp]
        simpa using ih cs hlen
      · have hp : isPrefixOfB [ch] (c :: cs) = false := by
          simp [isPrefixOfB]
          exact fun h => hc h.symm
        simp only [replaceFuel]
        rw [if_neg (by simp [hp])]
        intro h
        rcases List.mem_cons.mp h with h1 | h1
        · exact hc h1.symm
        · exact ih cs hlen h1

/-- A string ending with the two fixed characters `d`, `c`. -/
def endsPair (d c : Char) (s : Str) : Prop := ∃ t, s = t ++ [d, c]

/-- A pattern free of `d` and `c` that is a prefix of `t ++ [d, c]`
already fits inside `t`. -/
theorem prefix_of_endsPair {pat t : Str} {d c : Char} (hd : d ∉ pat) (_hc : c ∉ pat)
    (hp : pat <+: t ++ [d, c]) : pat <+: t ∧ pat.length ≤ t.length := by
  have hlen : pat.length ≤ t.length := by
    by_contra hgt
    push_neg at hgt
    have hi : t.length < pat.length := hgt
    have hb : t.length < (t ++ [d, c]).length := by simp
    have h1 : pat[t.length] = (t ++ [d, c])[t.length] :=
      hp.getElem hi
    have h2 : (t ++ [d, c])[t.length] = d := by
      rw [List.getElem_append_right (Nat.le_refl t.length)]
      simp
    have h3 : d ∈ pat := by
      have h4 := List.getElem_mem hi
      rw [h1, h2] at h4
      exact h4
    exact hd h3
  constructor
  · have h1 := List.prefix_iff_eq_take.mp hp
    rw [List.take_append_of_le_length hlen] at h1
    rw [h1]
    exact List.take_prefix _ _
  · exact hlen

/-- Replacing a singleton string free of the pattern's characters. -/
theorem replaceFuel_singleton (pat repl : Str) (c : Char) (hc : c ∉ pat)
    (fuel : Nat) (hf : 1 ≤ fuel) : replaceFuel pat repl fuel [c] = [c] := by
  cases pat with
  | nil =>
    cases fuel with
    | zero => exact absurd hf (by omega)
    | succ f => simp [replaceFuel, isPrefixOfB]
  | cons p0 pt =>
    have hne : ¬ p0 = c := fun h => hc (h ▸ List.mem_cons_self p0 pt)
    apply replaceFuel_not_contains
    · simp [containsSub, isPrefixOfB, hne]
    · simpa using hf

/-- Replacement with a pattern free of `d` and `c` preserves the final
two characters `d`, `c`. -/
theorem replaceFuel_endsPair {pat repl : Str} {d c : Char}
    (hd : d ∉ pat) (hc : c ∉ pat) :
    ∀ (fuel : Nat) (s : Str), s.length ≤ fuel → endsPair d c s →
      endsPair d c (replaceFuel pat repl fuel s) := by
  intro fuel
  induction fuel with
  | zero =>
    intro s hf he
    obtain ⟨t, rfl⟩ := he
    simp at hf
  | succ fuel ih =>
    intro s hf he
    obtain ⟨t, hts⟩ := he
    cases s with
    | nil => exact absurd hts (by simp)
    | cons x xs =>
      simp only [replaceFuel]
      by_cases hp : isPrefixOfB pat (x :: xs) = true
      · rw [if_pos hp]
        cases pat with
        | nil => exact ⟨t, hts⟩
        | cons p0 pt =>
          have hpre : (p0 :: pt) <+: (x :: xs) := (isPrefixOfB_iff _ _).mp hp
          have hkey := prefix_of_endsPair hd hc (hts ▸ hpre)
          have hdrop : xs.drop pt.length = (x :: xs).drop (p0 :: pt).length := by
            simp
          have hdrop2 : xs.drop pt.length = t.drop (p0 :: pt).length ++ [d, c] := by
            rw [hdrop, hts, List.drop_append_of_le_length hkey.2]
          have hflen : (xs.drop pt.length).length ≤ fuel := by
            have h1 : (x :: xs).length ≤ fuel + 1 := hf
            have h2 : (xs.drop pt.length).length = xs.length - pt.length := by simp
            simp at h1
            omega
          obtain ⟨u, hu⟩ := ih (xs.drop pt.length) hflen ⟨_, hdrop2⟩
          refine ⟨repl ++ u, ?_⟩
          show repl ++ replaceFuel (p0 :: pt) repl fuel (xs.drop pt.length)
            = repl ++ u ++ [d, c]
          rw [hu, List.append_assoc]
      · rw [if_neg hp]
        cases t with
        | nil =>
          have hx : x = d := by
            have := hts
            simp at this
            exact this.1
          have hxs : xs = [c] := by
            have := hts
            simp at this
            exact this.2
          subst hx
          subst hxs
          rw [replaceFuel_singleton pat repl c hc fuel (by simpa using hf)]
          exact ⟨[], rfl⟩
        | cons t0 ts =>
          have hx : x = t0 ∧ xs = ts ++ [d, c] := by
            have := hts
            simp at this
            exact this
          have hflen : xs.length ≤ fuel := by
            have h1 : (x :: xs).length ≤ fuel + 1 := hf
            simp at h1
            omega
          obtain ⟨u, hu⟩ := ih xs hflen ⟨ts, hx.2⟩
          exact ⟨x :: u, by rw [hu]; rfl⟩

/-- Folding a replacement table whose patterns are free of `d` and `c`
preserves the final two characters. -/
theorem foldReplace_endsPair (tbl : List (Str × Str)) {d c : Char}
    (h : ∀ pt ∈ tbl, d ∉ pt.1 ∧ c ∉ pt.1) :
    ∀ (s : Str), endsPair d c s →
      endsPair d c (tbl.foldl (fun acc ct => listReplace acc ct.1 ct.2) s) := by
  induction tbl with
  | nil => intro s hs; exact hs
  | cons pt tbl ih =>
    intro s hs
    rw [List.foldl_cons]
    apply ih (fun q hq => h q (List.mem_cons_of_mem pt hq))
    exact replaceFuel_endsPair (h pt (List.mem_cons_self pt tbl)).1
      (h pt (List.mem_cons_self pt tbl)).2 s.length s (Nat.le_refl _) hs

/-- `replace_special` introduces no backslash: its replacement targets
are backslash-free, so a backslash-free string stays backslash-free. -/
theorem replace_special_no_backslash (s : Str) (hs : '\\' ∉ s) :
    '\\' ∉ Pubparse.replace_special s := by
  intro h
  rcases foldReplace_chars Pubparse.replaceTable s h with h1 | ⟨pt, hpt, hcp⟩
  · exact hs h1
  · have htbl : ∀ pt ∈ Pubparse.replaceTable, '\\' ∉ pt.2 := by decide
    exact htbl pt hpt hcp

/-- The first sixteen rules of `replaceTable`, before the two rules
that delete the braces. -/
def replaceTableFront : List (Str × Str) :=
  [ (str "\\\x22a", str "&auml;"),
    (str "\\\x27a", str "&aacute;"),
    (str "\\c\x7bc\x7d", str "&ccedil;"),
    (str "\\\x22e", str "&euml;"),
    (str "\\\x27e", str "&eacute;"),
    (str "\\\x27i", str "&iacute;"),
    (str "\\\x27o", str "&oacute;"),
    (str "\\\x60a", str "&agrave;"),
    (str "\\\x60e", str "&egrave;"),
    (str "\\\x60o", str "&ograve;"),
    (str "\\\x22o", str "&ouml;"),
    (str "\\^o", str "&ocirc;"),
    (str "\\o", str "&oslash;"),
    (str "\\&", str "&amp;"),
    (str "\\textsc\x7b", []),
    (str "\\texttt", []) ]

/-- `replace_special` is the sixteen front rules followed by the two
brace deletions. -/
theorem replace_special_split (s : Str) :
    Pubparse.replace_special s
      = listReplace (listReplace
          (replaceTableFront.foldl (fun acc ct => listReplace acc ct.1 ct.2) s)
          (str "\x7b") []) (str "\x7d") [] := by
  simp only [Pubparse.replace_special, Pubparse.replaceTable, replaceTableFront,
    List.foldl_cons, List.foldl_nil]

/-- The last two rules of `replace_special` delete every brace, and no
earlier target reintroduces one: the result never contains a brace. -/
theorem replace_special_no_braces (s : Str) :
    '\x7b' ∉ Pubparse.replace_special s ∧ '\x7d' ∉ Pubparse.replace_special s := by
  have h1 := replace_special_split s
  have hopen : '\x7b' ∉ listReplace
      (replaceTableFront.foldl (fun acc ct => listReplace acc ct.1 ct.2) s)
      (str "\x7b") [] := by
    have hb : (str "\x7b") = ['\x7b'] := rfl
    rw [listReplace, hb]
    exact replaceFuel_removes_char '\x7b' _ _ (Nat.le_refl _)
  constructor
  · rw [h1]
    intro h
    rcases replaceFuel_chars _ _ h with h3 | h3
    · exact hopen h3
    · simp at h3
  · rw [h1]
    have hb : (str "\x7d") = ['\x7d'] := rfl
    rw [listReplace, hb]
    exact replaceFuel_removes_char '\x7d' _ _ (Nat.le_refl _)

/-- C7 counterexample: `replace_special` is not idempotent.  On the
three-character string `\\&` one application yields `\&amp;` (the rule
for `\&` fires at the second character), and a second application
rewrites the freshly adjacent `\&` again, yielding `&amp;amp;`. -/
theorem C7_counterexample :
    Pubparse.replace_special (str "\\\\&") = str "\\&amp;" ∧
      Pubparse.replace_special (Pubparse.replace_special (str "\\\\&"))
        = str "&amp;amp;" ∧
      Pubparse.replace_special (Pubparse.replace_special (str "\\\\&"))
        ≠ Pubparse.replace_special (str "\\\\&") := by
  exact ⟨by decide, by decide, by decide⟩

/-- C7 (amended): `replace_special` is idempotent on every input free
of backslashes (one application only deletes braces, and a second
application finds nothing left to rewrite), and it leaves unchanged any
string in which none of its patterns occurs; in general it is not
idempotent, since deleting braces or rewriting `\&` can create a new
occurrence of a pattern. -/
theorem C7_replace_special_idempotent_on_backslash_free :
    (∀ s : Str, '\\' ∉ s →
      Pubparse.replace_special (Pubparse.replace_special s)
        = Pubparse.replace_special s) ∧
    (∀ s : Str, (∀ pt ∈ Pubparse.replaceTable, containsSub pt.1 s = false) →
      Pubparse.replace_special s = s) := by
  constructor
  · intro s hs
    have hb := replace_special_no_backslash s hs
    have hbr := replace_special_no_braces s
    apply foldReplace_not_contains
    intro pt hpt
    have htbl : ∀ pt ∈ Pubparse.replaceTable,
        '\\' ∈ pt.1 ∨ '\x7b' ∈ pt.1 ∨ '\x7d' ∈ pt.1 := by decide
    rcases htbl pt hpt with h | h | h
    · exact containsSub_eq_false_of_char h hb
    · exact containsSub_eq_false_of_char h hbr.1
    · exact containsSub_eq_false_of_char h hbr.2
  · intro s hs
    exact foldReplace_not_contains Pubparse.replaceTable s hs

set_option maxHeartbeats 1000000 in
/-- Witness for C7 on a backslash-free string containing braces and on
a string without any pattern occurrence. -/
theorem C7_witness :
    Pubparse.replace_special (Pubparse.replace_special (str "abc \x7bdef\x7d"))
        = Pubparse.replace_special (str "abc \x7bdef\x7d") ∧
      Pubparse.replace_special (str "pq.") = str "pq." :=
  ⟨C7_replace_special_idempotent_on_backslash_free.1 (str "abc \x7bdef\x7d")
      (by decide),
    C7_replace_special_idempotent_on_backslash_free.2 (str "pq.")
      (by decide)⟩

/-- A lookup of an absent key raises `KeyError`. -/
theorem getE_of_not_has (e : Entry) (k : Str) (h : Entry.has e k = false) :
    Entry.getE e k = Except.error (PyErr.keyError k) := by
  unfold Entry.has at h
  unfold Entry.getE
  cases hg : Entry.get? e k with
  | none => rfl
  | some v => rw [hg] at h; exact Bool.noConfusion h

/-- A lookup with a known binding. -/
theorem getE_of_get? {e : Entry} {k v : Str} (h : Entry.get? e k = some v) :
    Entry.getE e k = Except.ok v := by
  unfold Entry.getE
  rw [h]

/-- The total lookup with a known binding. -/
theorem get!_of_get? {e : Entry} {k v : Str} (h : Entry.get? e k = some v) :
    Entry.get! e k = v := by
  unfold Entry.get!
  rw [h]
  rfl

/-- With a title present and no empty `note`, `html_title` succeeds. -/
theorem html_title_ok (e : Entry) (htitle : Entry.has e Pubparse.keyTitle = true)
    (hnote : Entry.has e Pubparse.keyNote = true →
      splitWs (Entry.get! e Pubparse.keyNote) ≠ []) :
    ∃ t, Pubparse.html_title e = Except.ok t := by
  unfold Pubparse.html_title
  have htok : Entry.getE e Pubparse.keyTitle = Except.ok (Entry.get! e Pubparse.keyTitle) :=
    getE_of_has e Pubparse.keyTitle htitle
  by_cases hn : Entry.has e Pubparse.keyNote = true
  · rw [if_pos hn]
    cases hs : splitWs (Entry.get! e Pubparse.keyNote) with
    | nil => exact absurd hs (hnote hn)
    | cons tok rest =>
      rw [exceptBind_ok, htok, exceptBind_ok]
      by_cases hc : Pubparse.replace_special_url tok ≠ [] ∧
          containsSub (str "http://") (Pubparse.replace_special_url tok) = true
      · rw [if_pos hc]; exact ⟨_, rfl⟩
      · rw [if_neg hc]; exact ⟨_, rfl⟩
  · rw [if_neg hn, exceptBind_ok, htok, exceptBind_ok]
    rw [if_neg (by simp)]
    exact ⟨_, rfl⟩

/-- C8 counterexample: a `book` lacking `publisher` makes `format_books`
fail with a bare `KeyError` carrying only the key `publisher`; the error
is identical for two records that differ in their titles, and the string
`publisher` contains neither title, so no error of the code names the
record's title — there is no `MissingFieldError` in either script. -/
theorem C8_counterexample :
    Pubparse.format_books
        [[(keyAuthor, str "A B"), (Pubparse.keyTitle, str "T1"), (keyYear, str "2005")]]
        = Except.error (PyErr.keyError (str "publisher")) ∧
      Pubparse.format_books
        [[(keyAuthor, str "A B"), (Pubparse.keyTitle, str "T2"), (keyYear, str "2005")]]
        = Except.error (PyErr.keyError (str "publisher")) ∧
      containsSub (str "T1") (str "publisher") = false ∧
      containsSub (str "T2") (str "publisher") = false := by
  exact ⟨by decide, by decide, by decide, by decide⟩

/-- C8 (amended): rendering a book whose mandatory `publisher`
attribute is absent (with author and title present, and any `note`
nonempty) does not proceed with blanks: it fails, but with a generic
`KeyError` naming only the missing key `publisher`, not with a
`MissingFieldError` that also names the record's title. -/
theorem C8_book_missing_publisher (book : Entry)
    (hauthor : Entry.has book keyAuthor = true)
    (htitle : Entry.has book Pubparse.keyTitle = true)
    (hnote : Entry.has book Pubparse.keyNote = true →
      splitWs (Entry.get! book Pubparse.keyNote) ≠ [])
    (hpub : Entry.has book Pubparse.keyPublisher = false) :
    Pubparse.format_book_one book
      = Except.error (PyErr.keyError Pubparse.keyPublisher) := by
  obtain ⟨t, ht⟩ := html_title_ok book htitle hnote
  rw [Pubparse.format_book_one, getE_of_has book keyAuthor hauthor, exceptBind_ok,
    ht, exceptBind_ok, getE_of_not_has book Pubparse.keyPublisher hpub,
    exceptBind_error]

/-- Witness for C8 at a concrete book without a publisher. -/
theorem C8_witness :
    Pubparse.format_book_one
        [(keyAuthor, str "A B"), (Pubparse.keyTitle, str "T1"), (keyYear, str "2005")]
      = Except.error (PyErr.keyError Pubparse.keyPublisher) :=
  C8_book_missing_publisher _ (by decide) (by decide) (by decide) (by decide)

/-- C6 counterexample: a record whose note holds an `https://` URL is
rendered as plain text by `html_title` in `pubparse.py` (only the
literal substring `http://` is recognised), and `html_title` in
`publications_parser.py` wraps the title in a hyperlink for any
nonempty `url` value, scheme or not. -/
theorem C6_counterexample :
    Pubparse.html_title
        [(Pubparse.keyTitle, str "T"), (Pubparse.keyNote, str "https://example.org/a.pdf")]
        = Except.ok (str "T. ") ∧
      containsSub (str "https://") (str "https://example.org/a.pdf") = true ∧
      containsSub (str "<a href")
        ((Pubparse.html_title [(Pubparse.keyTitle, str "T"),
          (Pubparse.keyNote, str "https://example.org/a.pdf")]).toOption.getD [])
        = false ∧
      PubParser.html_title [(PubParser.keyTitle, str "T"), (PubParser.keyUrl, str "foo")]
        = Except.ok (str "<a href=\x22foo\x22>T</a>. ") := by
  exact ⟨by decide, by decide, by decide, by decide⟩

/-- C6 (amended): the title is hyperlinked exactly under the
conditions the two scripts actually test.  In `pubparse.py`: the `note`
field is present and its first whitespace token, after escaping `&`,
contains the literal `http://` (an `https://` URL is not recognised,
and the `url` field is never consulted); with no note the title is
plain, and a present note must be nonempty or `split()[0]` raises.  In
`publications_parser.py`: the `url` field is present and nonempty after
stripping, with no scheme check at all (`note` is never consulted). -/
theorem C6_html_title_characterisation :
    (∀ (e : Entry) (t : Str), Entry.get? e Pubparse.keyTitle = some t →
      Entry.get? e Pubparse.keyNote = none →
      Pubparse.html_title e = Except.ok (t ++ str ". ")) ∧
    (∀ (e : Entry) (t nt tok : Str) (rest : List Str),
      Entry.get? e Pubparse.keyTitle = some t →
      Entry.get? e Pubparse.keyNote = some nt →
      splitWs nt = tok :: rest →
      Pubparse.html_title e
        = Except.ok
            (if Pubparse.replace_special_url tok ≠ [] ∧
                containsSub (str "http://") (Pubparse.replace_special_url tok) = true
              then str "<a href=\x22" ++ Pubparse.replace_special_url tok ++ str "\x22>"
                ++ t ++ str "</a>" ++ str ". "
              else t ++ str ". ")) ∧
    (∀ (e : Entry) (t nt : Str),
      Entry.get? e Pubparse.keyTitle = some t →
      Entry.get? e Pubparse.keyNote = some nt →
      splitWs nt = [] →
      Pubparse.html_title e = Except.error PyErr.indexError) ∧
    (∀ (e : Entry) (t : Str), Entry.get? e PubParser.keyTitle = some t →
      Entry.get? e PubParser.keyUrl = none →
      PubParser.html_title e = Except.ok (trimStr t ++ str ". ")) ∧
    (∀ (e : Entry) (t u : Str), Entry.get? e PubParser.keyTitle = some t →
      Entry.get? e PubParser.keyUrl = some u →
      PubParser.html_title e
        = Except.ok
            (if Pubparse.replace_special_url (trimStr u) ≠ []
              then str "<a href=\x22" ++ Pubparse.replace_special_url (trimStr u)
                ++ str "\x22>" ++ trimStr t ++ str "</a>" ++ str ". "
              else trimStr t ++ str ". ")) := by
  refine ⟨?_, ?_, ?_, ?_, ?_⟩
  · intro e t ht hn
    unfold Pubparse.html_title
    have hhas : Entry.has e Pubparse.keyNote = false := by
      unfold Entry.has
      rw [hn]
      rfl
    rw [if_neg (by simp [hhas]), exceptBind_ok, getE_of_get? ht, exceptBind_ok,
      if_neg (by simp)]
  · intro e t nt tok rest ht hn hs
    unfold Pubparse.html_title
    have hhas : Entry.has e Pubparse.keyNote = true := by
      unfold Entry.has
      rw [hn]
      rfl
    rw [if_pos hhas, get!_of_get? hn, hs, exceptBind_ok, getE_of_get? ht,
      exceptBind_ok]
    by_cases hc : Pubparse.replace_special_url tok ≠ [] ∧
        containsSub (str "http://") (Pubparse.replace_special_url tok) = true
    · rw [if_pos hc, if_pos hc]
    · rw [if_neg hc, if_neg hc]
  · intro e t nt ht hn hs
    unfold Pubparse.html_title
    have hhas : Entry.has e Pubparse.keyNote = true := by
      unfold Entry.has
      rw [hn]
      rfl
    rw [if_pos hhas, get!_of_get? hn, hs, exceptBind_error]
  · intro e t ht hu
    unfold PubParser.html_title
    rw [hu, getE_of_get? ht, exceptBind_ok, if_neg (by simp)]
  · intro e t u ht hu
    unfold PubParser.html_title
    rw [hu, getE_of_get? ht, exceptBind_ok]
    dsimp only
    by_cases hc : Pubparse.replace_special_url (trimStr u) ≠ []
    · rw [if_pos hc, if_pos hc]
    · rw [if_neg hc, if_neg hc]

/-- Witness for C6 on concrete records with an `http://` note, an
`https://` note, and a schemeless `url`. -/
theorem C6_witness :
    Pubparse.html_title
        [(Pubparse.keyTitle, str "T"), (Pubparse.keyNote, str "http://x.pdf m")]
        = Except.ok
            (if Pubparse.replace_special_url (str "http://x.pdf") ≠ [] ∧
                containsSub (str "http://")
                  (Pubparse.replace_special_url (str "http://x.pdf")) = true
              then str "<a href=\x22" ++ Pubparse.replace_special_url (str "http://x.pdf")
                ++ str "\x22>" ++ str "T" ++ str "</a>" ++ str ". "
              else str "T" ++ str ". ") ∧
      PubParser.html_title [(PubParser.keyTitle, str "T")]
        = Except.ok (trimStr (str "T") ++ str ". ") :=
  ⟨C6_html_title_characterisation.2.1
      [(Pubparse.keyTitle, str "T"), (Pubparse.keyNote, str "http://x.pdf m")]
      (str "T") (str "http://x.pdf m") (str "http://x.pdf") [str "m"]
      (by decide) (by decide) (by decide),
    C6_html_title_characterisation.2.2.2.1 [(PubParser.keyTitle, str "T")]
      (str "T") (by decide) (by decide)⟩

/-- Concrete Master's thesis record for C9 (all attribute values
distinct, so `remove_blanks` keeps every attribute). -/
def mthC9 : Entry :=
  [(keyAuthor, str "John Smith"), (PubParser.keyTitle, str "Modular"),
   (PubParser.keySchool, str "UW"), (PubParser.keyAddress, str "Seattle"),
   (keyYear, str "2005"), (PubParser.keyUrl, str "http://x")]

/-- Concrete book record for C9. -/
def bookC9 : Entry :=
  [(keyAuthor, str "John Smith"), (PubParser.keyTitle, str "B"),
   (str "publisher", str "AMS"), (keyYear, str "2007")]

set_option maxHeartbeats 2000000 in
/-- C9: the BibTeX branch of `format_masterstheses` in
`publications_parser.py` builds the stanza opening `@mastersthesis{...`
with author, title, school, address, year and the `url`-as-`note`
lines, but — unlike every other BibTeX branch, e.g. `format_books`,
whose stanza ends with `}` — it never appends the closing brace: the
rendered Master's-thesis stanza ends with the comma of its last field
line. -/
theorem C9_mastersthesis_bibtex_unterminated :
    PubParser.format_masterstheses_bibtex [mthC9]
        = Except.ok
            [str "@mastersthesis\x7bSmith2005,\n  author = \x7bJohn Smith\x7d,\n  title = \x7bModular\x7d,\n  school = \x7bUW\x7d,\n  address = \x7bSeattle\x7d,\n  year = \x7b2005\x7d,\n  note = \x7bhttp://x\x7d,"] ∧
      (str "@mastersthesis\x7bSmith2005,\n  author = \x7bJohn Smith\x7d,\n  title = \x7bModular\x7d,\n  school = \x7bUW\x7d,\n  address = \x7bSeattle\x7d,\n  year = \x7b2005\x7d,\n  note = \x7bhttp://x\x7d,").getLast? = some ',' ∧
      PubParser.format_book_bibtex_one bookC9
        = Except.ok
            (str "@book\x7bSmith2007,\n  author = \x7bJohn Smith\x7d,\n  title = \x7bB\x7d,\n  publisher = \x7bAMS\x7d,\n  year = \x7b2007\x7d,\n\x7d") ∧
      (str "@book\x7bSmith2007,\n  author = \x7bJohn Smith\x7d,\n  title = \x7bB\x7d,\n  publisher = \x7bAMS\x7d,\n  year = \x7b2007\x7d,\n\x7d").getLast? = some '\x7d' := by
  exact ⟨by decide, by decide, by decide, by decide⟩

/-!  Development for C4: rendering with all mandatory fields present. -/

/-- The supported publication kinds of `pubparse.py`, with the `misc`
kind split the way `output_html` renders it (preprint or undergraduate
thesis). -/
inductive Kind where
  | article | book | incollection | inproceedings | mastersthesis
  | miscPreprint | miscThesis | phdthesis | techreport | unpublished

/-- The mandatory attributes of each kind, per the docstrings of the
`format_*` functions (for an undergraduate thesis the `note` is read
unconditionally). -/
def mandatory : Kind → List Str
  | .article => [keyAuthor, Pubparse.keyTitle, Pubparse.keyJournal, keyYear]
  | .book => [keyAuthor, Pubparse.keyTitle, Pubparse.keyPublisher, keyYear]
  | .incollection => [keyAuthor, Pubparse.keyTitle, Pubparse.keyBooktitle, keyYear]
  | .inproceedings => [keyAuthor, Pubparse.keyTitle, Pubparse.keyBooktitle, keyYear]
  | .mastersthesis => [keyAuthor, Pubparse.keyTitle, Pubparse.keySchool, keyYear]
  | .miscPreprint => [keyAuthor, Pubparse.keyTitle, keyYear]
  | .miscThesis => [keyAuthor, Pubparse.keyTitle, keyYear, Pubparse.keyNote]
  | .phdthesis => [keyAuthor, Pubparse.keyTitle, Pubparse.keySchool, keyYear]
  | .techreport => [keyAuthor, Pubparse.keyTitle, Pubparse.keyInstitution, keyYear]
  | .unpublished => [keyAuthor, Pubparse.keyTitle, keyYear]

/-- Dispatch to the per-kind HTML renderer body. -/
def renderOne : Kind → Entry → Except PyErr Str
  | .article => Pubparse.format_article_one
  | .book => Pubparse.format_book_one
  | .incollection => Pubparse.format_collection_one
  | .inproceedings => Pubparse.format_proceeding_one
  | .mastersthesis => Pubparse.format_mastersthesis_one
  | .miscPreprint => Pubparse.format_misc_one false
  | .miscThesis => Pubparse.format_misc_one true
  | .phdthesis => Pubparse.format_phdthesis_one
  | .techreport => Pubparse.format_techreport_one
  | .unpublished => Pubparse.format_unpublished_one

/-- The rendered HTML of one record: the per-kind body followed by the
`replace_special` pass the `format_*` functions map over their
results. -/
def renderHtml (k : Kind) (e : Entry) : Except PyErr Str :=
  (renderOne k e).map Pubparse.replace_special

/-- A four-character string is a four-element list. -/
theorem length_four_shape (y : Str) (h : y.length = 4) :
    ∃ a b c d, y = [a, b, c, d] := by
  cases y with
  | nil => simp at h
  | cons a y1 =>
    cases y1 with
    | nil => simp at h
    | cons b y2 =>
      cases y2 with
      | nil => simp at h
      | cons c y3 =>
        cases y3 with
        | nil => simp at h
        | cons d y4 =>
          cases y4 with
          | nil => exact ⟨a, b, c, d, rfl⟩
          | cons x y5 => simp at h

/-- Stripping preserves the final two non-whitespace characters. -/
theorem trimStr_endsPair {d c : Char} (hd : isSpaceChar d = false)
    (hc : isSpaceChar c = false) (s : Str) (h : endsPair d c s) :
    endsPair d c (trimStr s) := by
  obtain ⟨t, rfl⟩ := h
  have hleft : ∀ t : Str, endsPair d c ((t ++ [d, c]).dropWhile isSpaceChar) := by
    intro t
    induction t with
    | nil =>
      rw [List.nil_append, List.dropWhile_cons_of_neg (by simp [hd])]
      exact ⟨[], rfl⟩
    | cons t0 ts ih =>
      by_cases h0 : isSpaceChar t0 = true
      · rw [List.cons_append, List.dropWhile_cons_of_pos h0]
        exact ih
      · rw [List.cons_append, List.dropWhile_cons_of_neg (by simpa using h0)]
        exact ⟨t0 :: ts, rfl⟩
  obtain ⟨u, hu⟩ := hleft t
  unfold trimStr
  rw [hu]
  have hrev : (u ++ [d, c]).reverse = c :: d :: u.reverse := by simp
  rw [hrev, List.dropWhile_cons_of_neg (by simp [hc])]
  refine ⟨u, ?_⟩
  simp

/-- A non-whitespace character survives the left whitespace trim. -/
theorem mem_dropWhile_of_not (c0 : Char) (hc : isSpaceChar c0 = false) :
    ∀ s : Str, c0 ∈ s → c0 ∈ s.dropWhile isSpaceChar := by
  intro s
  induction s with
  | nil => intro h; exact absurd h (by simp)
  | cons x xs ih =>
    intro h
    by_cases hx : isSpaceChar x = true
    · rw [List.dropWhile_cons_of_pos hx]
      rcases List.mem_cons.mp h with h1 | h1
      · rw [h1] at hc; rw [hc] at hx; exact Bool.noConfusion hx
      · exact ih h1
    · rw [List.dropWhile_cons_of_neg (by simpa using hx)]
      exact h

/-- A non-whitespace character survives `strip`. -/
theorem mem_trimStr (c0 : Char) (hc : isSpaceChar c0 = false) (s : Str)
    (h : c0 ∈ s) : c0 ∈ trimStr s := by
  unfold trimStr
  rw [List.mem_reverse]
  apply mem_dropWhile_of_not c0 hc
  rw [List.mem_reverse]
  exact mem_dropWhile_of_not c0 hc s h

/-- Appending a four-digit year and a period, stripping, and applying
`replace_special` produces a string ending in a digit followed by a
single period. -/
theorem finalize_single_period (X year : Str) (h4 : year.length = 4)
    (hdig : ∀ ch ∈ year, ch.isDigit = true) :
    ∃ t d, Pubparse.replace_special (trimStr (X ++ year ++ str ".")) = t ++ [d, '.']
      ∧ d ≠ '.' := by
  obtain ⟨a, b, c0, d, rfl⟩ := length_four_shape year h4
  have hd : d.isDigit = true := hdig d (by simp)
  have hdne : d ≠ '.' := by
    intro h
    rw [h] at hd
    exact absurd hd (by decide)
  have hdsp : isSpaceChar d = false := by
    by_contra hcon
    have h1 : isSpaceChar d = true := by simpa using hcon
    have h2 : d.isDigit = false := by
      unfold isSpaceChar at h1
      simp only [Bool.or_eq_true, decide_eq_true_eq] at h1
      rcases h1 with ((((h | h) | h) | h) | h) | h <;> subst h <;> decide
    rw [hd] at h2
    exact Bool.noConfusion h2
  have hpair0 : endsPair d '.' (X ++ [a, b, c0, d] ++ str ".") := by
    refine ⟨X ++ [a, b, c0], ?_⟩
    have hstr : (str ".") = ['.'] := rfl
    rw [hstr]
    simp
  have hpair1 := trimStr_endsPair hdsp (by decide) _ hpair0
  have htbl : ∀ pt ∈ Pubparse.replaceTable, d ∉ pt.1 ∧ '.' ∉ pt.1 := by
    have hnodigit : ∀ pt ∈ Pubparse.replaceTable,
        ∀ ch ∈ pt.1, ch.isDigit = false ∧ ¬ ch = '.' := by decide
    intro pt hpt
    constructor
    · intro hmem
      have h2 := (hnodigit pt hpt d hmem).1
      rw [hd] at h2
      exact Bool.noConfusion h2
    · intro hmem
      exact (hnodigit pt hpt '.' hmem).2 rfl
  obtain ⟨t, ht⟩ := foldReplace_endsPair Pubparse.replaceTable htbl _ hpair1
  refine ⟨t, d, ?_, hdne⟩
  show Pubparse.replaceTable.foldl (fun acc ct => listReplace acc ct.1 ct.2)
    (trimStr (X ++ [a, b, c0, d] ++ str ".")) = t ++ [d, '.']
  exact ht

/-- C4 (amended): for every supported kind and every record with that
kind's mandatory attributes present, a four-digit year, and any present
`note` attribute nonempty, HTML rendering succeeds and the result ends
with a single trailing period (its last two characters are a digit
followed by `.`).  A present-but-empty `note` instead raises
`IndexError` in `html_title`, so the extra `note` condition is needed
(see the counterexample). -/
theorem C4_render_mandatory_single_period (k : Kind) (e : Entry)
    (hmand : ∀ a ∈ mandatory k, Entry.has e a = true)
    (hnote : Entry.has e Pubparse.keyNote = true →
      splitWs (Entry.get! e Pubparse.keyNote) ≠ [])
    (hyear4 : (Entry.get! e keyYear).length = 4)
    (hyeard : ∀ ch ∈ Entry.get! e keyYear, ch.isDigit = true) :
    ∃ s, renderHtml k e = Except.ok s ∧ ∃ t d, s = t ++ [d, '.'] ∧ d ≠ '.' := by
  cases k with
  | article =>
    have ha := getE_of_has e keyAuthor (hmand keyAuthor (by simp [mandatory]))
    have hj := getE_of_has e Pubparse.keyJournal
      (hmand Pubparse.keyJournal (by simp [mandatory]))
    have hy := getE_of_has e keyYear (hmand keyYear (by simp [mandatory]))
    obtain ⟨tp, htp⟩ := html_title_ok e
      (hmand Pubparse.keyTitle (by simp [mandatory])) hnote
    rw [renderHtml]
    simp only [renderOne]
    rw [Pubparse.format_article_one, ha, exceptBind_ok, htp, exceptBind_ok, hj,
      exceptBind_ok, hy, exceptBind_ok, exceptMap_ok]
    obtain ⟨t, d, hfin, hd⟩ := finalize_single_period _ _ hyear4 hyeard
    exact ⟨_, rfl, t, d, hfin, hd⟩
  | book =>
    have ha := getE_of_has e keyAuthor (hmand keyAuthor (by simp [mandatory]))
    have hp := getE_of_has e Pubparse.keyPublisher
      (hmand Pubparse.keyPublisher (by simp [mandatory]))
    have hy := getE_of_has e keyYear (hmand keyYear (by simp [mandatory]))
    obtain ⟨tp, htp⟩ := html_title_ok e
      (hmand Pubparse.keyTitle (by simp [mandatory])) hnote
    rw [renderHtml]
    simp only [renderOne]
    rw [Pubparse.format_book_one, ha, exceptBind_ok, htp, exceptBind_ok, hp,
      exceptBind_ok, hy, exceptBind_ok, exceptMap_ok]
    obtain ⟨t, d, hfin, hd⟩ := finalize_single_period _ _ hyear4 hyeard
    exact ⟨_, rfl, t, d, hfin, hd⟩
  | incollection =>
    have ha := getE_of_has e keyAuthor (hmand keyAuthor (by simp [mandatory]))
    have hb := getE_of_has e Pubparse.keyBooktitle
      (hmand Pubparse.keyBooktitle (by simp [mandatory]))
    have hy := getE_of_has e keyYear (hmand keyYear (by simp [mandatory]))
    obtain ⟨tp, htp⟩ := html_title_ok e
      (hmand Pubparse.keyTitle (by simp [mandatory])) hnote
    rw [renderHtml]
    simp only [renderOne]
    rw [Pubparse.format_collection_one, ha, exceptBind_ok, htp, exceptBind_ok, hb,
      exceptBind_ok, hy, exceptBind_ok, exceptMap_ok]
    obtain ⟨t, d, hfin, hd⟩ := finalize_single_period _ _ hyear4 hyeard
    exact ⟨_, rfl, t, d, hfin, hd⟩
  | inproceedings =>
    have ha := getE_of_has e keyAuthor (hmand keyAuthor (by simp [mandatory]))
    have hb := getE_of_has e Pubparse.keyBooktitle
      (hmand Pubparse.keyBooktitle (by simp [mandatory]))
    have hy := getE_of_has e keyYear (hmand keyYear (by simp [mandatory]))
    obtain ⟨tp, htp⟩ := html_title_ok e
      (hmand Pubparse.keyTitle (by simp [mandatory])) hnote
    rw [renderHtml]
    simp only [renderOne]
    rw [Pubparse.format_proceeding_one, ha, exceptBind_ok, htp, exceptBind_ok, hb,
      exceptBind_ok]
    have hdot : ('.' : Char) ∈ Pubparse.format_names (Entry.get! e keyAuthor)
        ++ str ". " ++ tp
        ++ Pubparse.optPart e Pubparse.keyEditor
            (fun v => str "In " ++ Pubparse.format_names v ++ str " (ed.). ")
        ++ Entry.get! e Pubparse.keyBooktitle ++ str ". "
        ++ Pubparse.optPart e Pubparse.keyPublisher (fun v => v ++ str ", ")
        ++ Pubparse.optPart e Pubparse.keySeries (fun v => v ++ str ", ")
        ++ Pubparse.optPart e Pubparse.keyVolume
            (fun v => str "volume " ++ v ++ str ", ") :=
      List.mem_append_left _ (List.mem_append_left _ (List.mem_append_left _
        (List.mem_append_left _ (List.mem_append_left _ (List.mem_append_left _
          (List.mem_append_left _ (List.mem_append_right _ (by decide))))))))
    cases hpg : Entry.get? e Pubparse.keyPages with
    | none =>
      rw [hy]
      simp only [exceptBind_ok, exceptMap_ok]
      obtain ⟨t, d, hfin, hd⟩ := finalize_single_period _ _ hyear4 hyeard
      exact ⟨_, rfl, t, d, hfin, hd⟩
    | some pg =>
      rw [hy]
      simp only [exceptBind_ok]
      have hmemtrim := mem_trimStr '.' (by decide) _ hdot
      cases hL : (trimStr (Pubparse.format_names (Entry.get! e keyAuthor)
          ++ str ". " ++ tp
          ++ Pubparse.optPart e Pubparse.keyEditor
              (fun v => str "In " ++ Pubparse.format_names v ++ str " (ed.). ")
          ++ Entry.get! e Pubparse.keyBooktitle ++ str ". "
          ++ Pubparse.optPart e Pubparse.keyPublisher (fun v => v ++ str ", ")
          ++ Pubparse.optPart e Pubparse.keySeries (fun v => v ++ str ", ")
          ++ Pubparse.optPart e Pubparse.keyVolume
              (fun v => str "volume " ++ v ++ str ", "))).getLast? with
      | none =>
        rw [List.getLast?_eq_none_iff] at hL
        rw [hL] at hmemtrim
        exact absurd hmemtrim (by simp)
      | some c0 =>
        simp only [exceptBind_ok, exceptMap_ok]
        obtain ⟨t, d, hfin, hd⟩ := finalize_single_period _ _ hyear4 hyeard
        exact ⟨_, rfl, t, d, hfin, hd⟩
  | mastersthesis =>
    have ha := getE_of_has e keyAuthor (hmand keyAuthor (by simp [mandatory]))
    have hs := getE_of_has e Pubparse.keySchool
      (hmand Pubparse.keySchool (by simp [mandatory]))
    have hy := getE_of_has e keyYear (hmand keyYear (by simp [mandatory]))
    obtain ⟨tp, htp⟩ := html_title_ok e
      (hmand Pubparse.keyTitle (by simp [mandatory])) hnote
    rw [renderHtml]
    simp only [renderOne]
    rw [Pubparse.format_mastersthesis_one, ha, exceptBind_ok, htp, exceptBind_ok,
      hs, exceptBind_ok, hy, exceptBind_ok, exceptMap_ok]
    obtain ⟨t, d, hfin, hd⟩ := finalize_single_period _ _ hyear4 hyeard
    exact ⟨_, rfl, t, d, hfin, hd⟩
  | miscPreprint =>
    have ha := getE_of_has e keyAuthor (hmand keyAuthor (by simp [mandatory]))
    have hy := getE_of_has e keyYear (hmand keyYear (by simp [mandatory]))
    obtain ⟨tp, htp⟩ := html_title_ok e
      (hmand Pubparse.keyTitle (by simp [mandatory])) hnote
    rw [renderHtml]
    simp only [renderOne]
    rw [Pubparse.format_misc_one, ha, exceptBind_ok, htp, exceptBind_ok]
    rw [if_neg (by simp), exceptBind_ok, hy, exceptBind_ok, exceptMap_ok]
    obtain ⟨t, d, hfin, hd⟩ := finalize_single_period _ _ hyear4 hyeard
    exact ⟨_, rfl, t, d, hfin, hd⟩
  | miscThesis =>
    have ha := getE_of_has e keyAuthor (hmand keyAuthor (by simp [mandatory]))
    have hy := getE_of_has e keyYear (hmand keyYear (by simp [mandatory]))
    have hn := getE_of_has e Pubparse.keyNote
      (hmand Pubparse.keyNote (by simp [mandatory]))
    obtain ⟨tp, htp⟩ := html_title_ok e
      (hmand Pubparse.keyTitle (by simp [mandatory])) hnote
    rw [renderHtml]
    simp only [renderOne]
    rw [Pubparse.format_misc_one, ha, exceptBind_ok, htp, exceptBind_ok]
    rw [if_pos rfl, hn, exceptMap_ok, exceptBind_ok, hy, exceptBind_ok,
      exceptMap_ok]
    obtain ⟨t, d, hfin, hd⟩ := finalize_single_period _ _ hyear4 hyeard
    exact ⟨_, rfl, t, d, hfin, hd⟩
  | phdthesis =>
    have ha := getE_of_has e keyAuthor (hmand keyAuthor (by simp [mandatory]))
    have hs := getE_of_has e Pubparse.keySchool
      (hmand Pubparse.keySchool (by simp [mandatory]))
    have hy := getE_of_has e keyYear (hmand keyYear (by simp [mandatory]))
    obtain ⟨tp, htp⟩ := html_title_ok e
      (hmand Pubparse.keyTitle (by simp [mandatory])) hnote
    rw [renderHtml]
    simp only [renderOne]
    rw [Pubparse.format_phdthesis_one, ha, exceptBind_ok, htp, exceptBind_ok, hs,
      exceptBind_ok, hy, exceptBind_ok, exceptMap_ok]
    obtain ⟨t, d, hfin, hd⟩ := finalize_single_period _ _ hyear4 hyeard
    exact ⟨_, rfl, t, d, hfin, hd⟩
  | techreport =>
    have ha := getE_of_has e keyAuthor (hmand keyAuthor (by simp [mandatory]))
    have hi := getE_of_has e Pubparse.keyInstitution
      (hmand Pubparse.keyInstitution (by simp [mandatory]))
    have hy := getE_of_has e keyYear (hmand keyYear (by simp [mandatory]))
    obtain ⟨tp, htp⟩ := html_title_ok e
      (hmand Pubparse.keyTitle (by simp [mandatory])) hnote
    rw [renderHtml]
    simp only [renderOne]
    rw [Pubparse.format_techreport_one, ha, exceptBind_ok, htp, exceptBind_ok, hi,
      exceptBind_ok, hy, exceptBind_ok, exceptMap_ok]
    obtain ⟨t, d, hfin, hd⟩ := finalize_single_period _ _ hyear4 hyeard
    exact ⟨_, rfl, t, d, hfin, hd⟩
  | unpublished =>
    have ha := getE_of_has e keyAuthor (hmand keyAuthor (by simp [mandatory]))
    have hy := getE_of_has e keyYear (hmand keyYear (by simp [mandatory]))
    obtain ⟨tp, htp⟩ := html_title_ok e
      (hmand Pubparse.keyTitle (by simp [mandatory])) hnote
    rw [renderHtml]
    simp only [renderOne]
    rw [Pubparse.format_unpublished_one, ha, exceptBind_ok, htp, exceptBind_ok, hy,
      exceptBind_ok, exceptMap_ok]
    obtain ⟨t, d, hfin, hd⟩ := finalize_single_period _ _ hyear4 hyeard
    exact ⟨_, rfl, t, d, hfin, hd⟩

/-- C4 counterexample: an article record with every mandatory attribute
present (author, title, journal, year) but whose optional `note`
attribute is the empty string makes `html_title` evaluate
`note.split()[0]` on an empty list, so rendering raises IndexError —
refuting the claim that presence of mandatory attributes alone rules
out errors. -/
theorem C4_counterexample :
    renderHtml Kind.article
      [(keyAuthor, str "Ann Boe"), (Pubparse.keyTitle, str "Title"),
       (Pubparse.keyJournal, str "J"), (keyYear, str "2005"),
       (Pubparse.keyNote, str "")] = Except.error PyErr.indexError := by
  rfl

/-- Witness for C4: a concrete article record satisfying all the
hypotheses, rendered successfully with a single trailing period. -/
theorem C4_witness :
    ∃ s, renderHtml Kind.article
      [(keyAuthor, str "Ann Boe"), (Pubparse.keyTitle, str "Title"),
       (Pubparse.keyJournal, str "J"), (keyYear, str "2005")] = Except.ok s ∧
      ∃ t d, s = t ++ [d, '.'] ∧ d ≠ '.' :=
  C4_render_mandatory_single_period Kind.article
    [(keyAuthor, str "Ann Boe"), (Pubparse.keyTitle, str "Title"),
     (Pubparse.keyJournal, str "J"), (keyYear, str "2005")]
    (by decide) (by decide) (by decide) (by decide)

namespace Pubparse

/-- `skipUntil` on a structured list: skip the lines without the token
and stop at the first line containing it. -/
theorem skipUntil_structured (tok : Str) (mid : List Str) :
    ∀ (line e : Str) (rest : List Str),
    containsSub tok line = false → (∀ l ∈ mid, containsSub tok l = false) →
    containsSub tok e = true →
    skipUntil tok line (mid ++ e :: rest) = some (e, rest) := by
  induction mid with
  | nil =>
    intro line e rest hl _ he
    rw [skipUntil.eq_def, if_neg (by simp [hl])]
    show skipUntil tok e rest = some (e, rest)
    rw [skipUntil.eq_def, if_pos he]
  | cons a as ih =>
    intro line e rest hl hmid he
    rw [skipUntil.eq_def, if_neg (by simp [hl])]
    show skipUntil tok a (as ++ e :: rest) = some (e, rest)
    exact ih a e rest (hmid a (by simp)) (fun l hla => hmid l (by simp [hla])) he

/-- `collectUntil` on a structured list: accumulate the lines without
the token and stop at the first line containing it, returning the
accumulated bytes. -/
theorem collectUntil_structured (tok : Str) (pre : List Str) :
    ∀ (m : Str) (rest : List Str) (line : Str) (tl : List Str),
    (∀ l ∈ pre, containsSub tok l = false) → containsSub tok m = true →
    line :: tl = pre ++ m :: rest →
    collectUntil tok line tl = some (pre.flatten, (m, rest)) := by
  induction pre with
  | nil =>
    intro m rest line tl _ hm hshape
    rw [List.nil_append] at hshape
    injection hshape with h1 h2
    subst h1; subst h2
    rw [collectUntil.eq_def, if_pos hm]
    rfl
  | cons p ps ih =>
    intro m rest line tl hpre hm hshape
    rw [List.cons_append] at hshape
    injection hshape with h1 h2
    subst h1; subst h2
    have hp : containsSub tok line = false := hpre line (by simp)
    rw [collectUntil.eq_def, if_neg (by simp [hp])]
    cases hps : ps ++ m :: rest with
    | nil => simp at hps
    | cons l ls =>
      have hrec := ih m rest l ls
        (fun x hx => hpre x (by simp [hx])) hm hps.symm
      show (collectUntil tok l ls).map (fun r => (line ++ r.1, r.2)) =
        some ((line :: ps).flatten, (m, rest))
      rw [hrec]
      show some (line ++ ps.flatten, (m, rest)) =
        some ((line :: ps).flatten, (m, rest))
      rw [List.flatten_cons]

/-- `spliceSection` on a structured list: keep the bytes before the
start marker and the start-marker line, add a newline and the fresh
section, drop the old section body, and return the end-marker line and
the remaining lines. -/
theorem spliceSection_structured (ts te sec : Str) (pre mid : List Str)
    (m e : Str) (rest : List Str) (line : Str) (tl : List Str)
    (hpre : ∀ l ∈ pre, containsSub ts l = false)
    (hm : containsSub ts m = true) (hme : containsSub te m = false)
    (hmid : ∀ l ∈ mid, containsSub te l = false)
    (he : containsSub te e = true)
    (hshape : line :: tl = pre ++ m :: (mid ++ e :: rest)) :
    spliceSection ts te sec line tl =
      some (pre.flatten ++ m ++ str "\n" ++ sec, (e, rest)) := by
  rw [spliceSection,
    collectUntil_structured ts pre m (mid ++ e :: rest) line tl hpre hm hshape]
  show (skipUntil te m (mid ++ e :: rest)).map
      (fun e1 => (pre.flatten ++ m ++ str "\n" ++ sec, e1)) = _
  rw [skipUntil_structured te mid m e rest hme hmid he]
  rfl

end Pubparse

/-- `(some a).bind f` computes `f a`. -/
theorem optBind_some {α β : Type} (a : α) (f : α → Option β) :
    (Option.some a).bind f = f a := rfl

/-- `(Except.ok a).toOption` is `some a`. -/
theorem exceptToOption_ok {ε α : Type} (a : α) :
    (Except.ok a : Except ε α).toOption = Option.some a := rfl

open Pubparse in
/-- C3 (amended): for a template whose lines decompose around the four
marker pairs — each start and end marker occurring on exactly one line,
with no earlier line containing it — `output_html` assembles the bytes
before each start marker, the start-marker line, an extra newline, the
fresh section, the end-marker line (carried into the following
section's prefix) and the trailing lines, all in template order; the
assembled content is then passed through `replace_maths`, so the bytes
outside the marker pairs are preserved exactly only when the content is
free of the eleven mathematics patterns — not unconditionally, as the
claim states (see the counterexample). -/
theorem C3_output_html_frame (pubs : PubDict) (sec1 sec2 sec3 sec4 : Str)
    (pre1 mid1 pre2 mid2 pre3 mid3 pre4 mid4 post : List Str)
    (m1 e1 m2 e2 m3 e3 m4 e4 : Str)
    (h1 : articlesSection pubs = Except.ok sec1)
    (h2 : thesesSection pubs = Except.ok sec2)
    (h3 : booksSection pubs = Except.ok sec3)
    (h4 : preprintsSection pubs = Except.ok sec4)
    (hp1 : ∀ l ∈ pre1, containsSub tokStartArticles l = false)
    (hm1 : containsSub tokStartArticles m1 = true)
    (hm1e : containsSub tokEndArticles m1 = false)
    (hmid1 : ∀ l ∈ mid1, containsSub tokEndArticles l = false)
    (he1 : containsSub tokEndArticles e1 = true)
    (he1s : containsSub tokStartTheses e1 = false)
    (hp2 : ∀ l ∈ pre2, containsSub tokStartTheses l = false)
    (hm2 : containsSub tokStartTheses m2 = true)
    (hm2e : containsSub tokEndTheses m2 = false)
    (hmid2 : ∀ l ∈ mid2, containsSub tokEndTheses l = false)
    (he2 : containsSub tokEndTheses e2 = true)
    (he2s : containsSub tokStartBooks e2 = false)
    (hp3 : ∀ l ∈ pre3, containsSub tokStartBooks l = false)
    (hm3 : containsSub tokStartBooks m3 = true)
    (hm3e : containsSub tokEndBooks m3 = false)
    (hmid3 : ∀ l ∈ mid3, containsSub tokEndBooks l = false)
    (he3 : containsSub tokEndBooks e3 = true)
    (he3s : containsSub tokStartPreprints e3 = false)
    (hp4 : ∀ l ∈ pre4, containsSub tokStartPreprints l = false)
    (hm4 : containsSub tokStartPreprints m4 = true)
    (hm4e : containsSub tokEndPreprints m4 = false)
    (hmid4 : ∀ l ∈ mid4, containsSub tokEndPreprints l = false)
    (he4 : containsSub tokEndPreprints e4 = true) :
    output_html_content pubs
      (pre1 ++ m1 :: (mid1 ++ e1 :: (pre2 ++ m2 :: (mid2 ++ e2 ::
        (pre3 ++ m3 :: (mid3 ++ e3 :: (pre4 ++ m4 :: (mid4 ++ e4 :: post))))))))
      = some (replace_maths
        (pre1.flatten ++ m1 ++ str "\n" ++ sec1 ++ e1
          ++ pre2.flatten ++ m2 ++ str "\n" ++ sec2 ++ e2
          ++ pre3.flatten ++ m3 ++ str "\n" ++ sec3 ++ e3
          ++ pre4.flatten ++ m4 ++ str "\n" ++ sec4 ++ e4 ++ post.flatten)) ∧
    ((∀ pt ∈ mathsTable, containsSub pt.1
        (pre1.flatten ++ m1 ++ str "\n" ++ sec1 ++ e1
          ++ pre2.flatten ++ m2 ++ str "\n" ++ sec2 ++ e2
          ++ pre3.flatten ++ m3 ++ str "\n" ++ sec3 ++ e3
          ++ pre4.flatten ++ m4 ++ str "\n" ++ sec4 ++ e4
          ++ post.flatten) = false) →
      output_html_content pubs
        (pre1 ++ m1 :: (mid1 ++ e1 :: (pre2 ++ m2 :: (mid2 ++ e2 ::
          (pre3 ++ m3 :: (mid3 ++ e3 :: (pre4 ++ m4 :: (mid4 ++ e4 :: post))))))))
        = some (pre1.flatten ++ m1 ++ str "\n" ++ sec1 ++ e1
          ++ pre2.flatten ++ m2 ++ str "\n" ++ sec2 ++ e2
          ++ pre3.flatten ++ m3 ++ str "\n" ++ sec3 ++ e3
          ++ pre4.flatten ++ m4 ++ str "\n" ++ sec4 ++ e4 ++ post.flatten)) := by
  have hp2c : ∀ l ∈ e1 :: pre2, containsSub tokStartTheses l = false := by
    intro l hl
    rcases List.mem_cons.mp hl with h | h
    · subst h; exact he1s
    · exact hp2 l h
  have hp3c : ∀ l ∈ e2 :: pre3, containsSub tokStartBooks l = false := by
    intro l hl
    rcases List.mem_cons.mp hl with h | h
    · subst h; exact he2s
    · exact hp3 l h
  have hp4c : ∀ l ∈ e3 :: pre4, containsSub tokStartPreprints l = false := by
    intro l hl
    rcases List.mem_cons.mp hl with h | h
    · subst h; exact he3s
    · exact hp4 l h
  have hsp : spliceAll sec1 sec2 sec3 sec4
      (pre1 ++ m1 :: (mid1 ++ e1 :: (pre2 ++ m2 :: (mid2 ++ e2 ::
        (pre3 ++ m3 :: (mid3 ++ e3 :: (pre4 ++ m4 :: (mid4 ++ e4 :: post))))))))
      = some ((pre1.flatten ++ m1 ++ str "\n" ++ sec1)
          ++ ((e1 :: pre2).flatten ++ m2 ++ str "\n" ++ sec2)
          ++ ((e2 :: pre3).flatten ++ m3 ++ str "\n" ++ sec3)
          ++ ((e3 :: pre4).flatten ++ m4 ++ str "\n" ++ sec4)
          ++ e4 ++ post.flatten) := by
    cases hc : pre1 ++ m1 :: (mid1 ++ e1 :: (pre2 ++ m2 :: (mid2 ++ e2 ::
        (pre3 ++ m3 :: (mid3 ++ e3 :: (pre4 ++ m4 :: (mid4 ++ e4 :: post))))))) with
    | nil => cases pre1 <;> simp at hc
    | cons line0 rest0 =>
      rw [spliceAll]
      rw [spliceSection_structured tokStartArticles tokEndArticles sec1 pre1
        mid1 m1 e1 _ line0 rest0 hp1 hm1 hm1e hmid1 he1 hc.symm]
      simp only [optBind_some]
      rw [spliceSection_structured tokStartTheses tokEndTheses sec2
        (e1 :: pre2) mid2 m2 e2 _ e1 _ hp2c hm2 hm2e hmid2 he2 (List.cons_append _ _ _).symm]
      simp only [optBind_some]
      rw [spliceSection_structured tokStartBooks tokEndBooks sec3
        (e2 :: pre3) mid3 m3 e3 _ e2 _ hp3c hm3 hm3e hmid3 he3 (List.cons_append _ _ _).symm]
      simp only [optBind_some]
      rw [spliceSection_structured tokStartPreprints tokEndPreprints sec4
        (e3 :: pre4) mid4 m4 e4 _ e3 _ hp4c hm4 hm4e hmid4 he4 (List.cons_append _ _ _).symm]
      rfl
  have hassoc : ((pre1.flatten ++ m1 ++ str "\n" ++ sec1)
          ++ ((e1 :: pre2).flatten ++ m2 ++ str "\n" ++ sec2)
          ++ ((e2 :: pre3).flatten ++ m3 ++ str "\n" ++ sec3)
          ++ ((e3 :: pre4).flatten ++ m4 ++ str "\n" ++ sec4)
          ++ e4 ++ post.flatten)
      = (pre1.flatten ++ m1 ++ str "\n" ++ sec1 ++ e1
          ++ pre2.flatten ++ m2 ++ str "\n" ++ sec2 ++ e2
          ++ pre3.flatten ++ m3 ++ str "\n" ++ sec3 ++ e3
          ++ pre4.flatten ++ m4 ++ str "\n" ++ sec4 ++ e4 ++ post.flatten) := by
    simp only [List.flatten_cons, List.append_assoc]
  have hout : output_html_content pubs
      (pre1 ++ m1 :: (mid1 ++ e1 :: (pre2 ++ m2 :: (mid2 ++ e2 ::
        (pre3 ++ m3 :: (mid3 ++ e3 :: (pre4 ++ m4 :: (mid4 ++ e4 :: post))))))))
      = some (replace_maths
        (pre1.flatten ++ m1 ++ str "\n" ++ sec1 ++ e1
          ++ pre2.flatten ++ m2 ++ str "\n" ++ sec2 ++ e2
          ++ pre3.flatten ++ m3 ++ str "\n" ++ sec3 ++ e3
          ++ pre4.flatten ++ m4 ++ str "\n" ++ sec4 ++ e4 ++ post.flatten)) := by
    rw [output_html_content, h1, exceptToOption_ok, optBind_some, h2,
      exceptToOption_ok, optBind_some, h3, exceptToOption_ok, optBind_some, h4,
      exceptToOption_ok, optBind_some, hsp, hassoc]
    rfl
  refine ⟨hout, fun hclean => ?_⟩
  rw [hout, replace_maths, foldReplace_not_contains mathsTable _ hclean]

/-- A concrete well-formed template: one content line before the four
marker pairs, each marker on its own line, nothing else.  The first
line contains the mathematics pattern `$e$`. -/
def C3tmpl : List Str :=
  [str "A $e$ B\n", str "START_TOKEN_ARTICLES\n", str "END_TOKEN_ARTICLES\n",
   str "START_TOKEN_THESES\n", str "END_TOKEN_THESES\n",
   str "START_TOKEN_BOOKS\n", str "END_TOKEN_BOOKS\n",
   str "START_TOKEN_PREPRINTS\n", str "END_TOKEN_PREPRINTS\n"]

set_option maxRecDepth 10000 in
set_option maxHeartbeats 4000000 in
/-- C3 counterexample: on a well-formed template containing each marker
pair exactly once, the first template line `A $e$ B` lies outside every
marker pair, yet the output does not start with those bytes: it starts
with `A <i>e</i> B`, because `output_html` passes the whole assembled
content through `replace_maths`.  So bytes outside the marker pairs are
not preserved byte-for-byte. -/
theorem C3_counterexample :
    (Pubparse.output_html_content Pubparse.emptyPubs C3tmpl).map
      (fun r => isPrefixOfB (str "A $e$ B\n") r) = some false ∧
    (Pubparse.output_html_content Pubparse.emptyPubs C3tmpl).map
      (fun r => isPrefixOfB (str "A <i>e</i> B\n") r) = some true := by
  constructor <;> decide

set_option maxRecDepth 10000 in
set_option maxHeartbeats 4000000 in
/-- Witness for C3: a concrete well-formed, mathematics-free template
processed with the empty publication dictionary, where the frame
theorem yields the exact spliced output. -/
theorem C3_witness :
    Pubparse.output_html_content Pubparse.emptyPubs
      ([str "<html>\n"] ++ str "START_TOKEN_ARTICLES\n" ::
        (([] : List Str) ++ str "END_TOKEN_ARTICLES\n" ::
          (([] : List Str) ++ str "START_TOKEN_THESES\n" ::
            (([] : List Str) ++ str "END_TOKEN_THESES\n" ::
              (([] : List Str) ++ str "START_TOKEN_BOOKS\n" ::
                (([] : List Str) ++ str "END_TOKEN_BOOKS\n" ::
                  (([] : List Str) ++ str "START_TOKEN_PREPRINTS\n" ::
                    (([] : List Str) ++ str "END_TOKEN_PREPRINTS\n" ::
                      [str "</html>\n"]))))))))
      = some (List.flatten [str "<html>\n"] ++ str "START_TOKEN_ARTICLES\n"
          ++ str "\n" ++ str "  <ol>\n  </ol>\n\n" ++ str "END_TOKEN_ARTICLES\n"
          ++ List.flatten ([] : List Str) ++ str "START_TOKEN_THESES\n"
          ++ str "\n" ++ str "  <ol>\n  </ol>\n\n" ++ str "END_TOKEN_THESES\n"
          ++ List.flatten ([] : List Str) ++ str "START_TOKEN_BOOKS\n"
          ++ str "\n" ++ str "  <ol>\n  </ol>\n\n" ++ str "END_TOKEN_BOOKS\n"
          ++ List.flatten ([] : List Str) ++ str "START_TOKEN_PREPRINTS\n"
          ++ str "\n" ++ str "  <ol>\n  </ol>\n\n" ++ str "END_TOKEN_PREPRINTS\n"
          ++ List.flatten [str "</html>\n"]) :=
  (C3_output_html_frame Pubparse.emptyPubs
    (str "  <ol>\n  </ol>\n\n") (str "  <ol>\n  </ol>\n\n")
    (str "  <ol>\n  </ol>\n\n") (str "  <ol>\n  </ol>\n\n")
    [str "<html>\n"] [] [] [] [] [] [] [] [str "</html>\n"]
    (str "START_TOKEN_ARTICLES\n") (str "END_TOKEN_ARTICLES\n")
    (str "START_TOKEN_THESES\n") (str "END_TOKEN_THESES\n")
    (str "START_TOKEN_BOOKS\n") (str "END_TOKEN_BOOKS\n")
    (str "START_TOKEN_PREPRINTS\n") (str "END_TOKEN_PREPRINTS\n")
    (by decide) (by decide) (by decide) (by decide)
    (by decide) (by decide) (by decide) (by decide) (by decide) (by decide)
    (by decide) (by decide) (by decide) (by decide) (by decide) (by decide)
    (by decide) (by decide) (by decide) (by decide) (by decide) (by decide)
    (by decide) (by decide) (by decide) (by decide) (by decide)).2 (by decide)
